import Mathlib

/-!
Verification development for the `akahu_to_budget` account-mapping
reconciliation engine (`modules/account_mapper.py` and the reconciliation
entry points in `akahu_budget_mapping.py`).

The Python code is shallowly embedded:
* JSON-like Python values (the contents of account records and mapping
  entries) are the inductive type `JVal`; Python `dict`s whose keys are
  known to be strings (account collections, mapping entries, the mapping
  itself) are association lists `List (String × _)` with Python `dict`
  semantics for lookup/assignment/pop (`alookup`, `aset`, `apop`).
* Python string helpers (`int(...)`, `.lower()`, `.strip()`, `sorted`) are
  modelled by executable Lean functions over `String.data`.
* Fallible Python code is modelled with `Except PyErr _`; the constructors
  of `PyErr` name the Python exception classes that can be raised.
* Numbers are modelled as `Int` (the account payloads manipulated by the
  mapper are JSON scalars; no float arithmetic is performed by the code
  under study, so a float constructor is not needed for these claims).
* Console printing and logging are pure display effects with no influence
  on the program state and are elided; `input()` results and environment
  variables are passed as explicit parameters.
-/

/-- Model of Python `str.lower()` (the code only lowercases ASCII data:
account names and the `"Y"` confirmation). -/
def pyLower (s : String) : String := ⟨s.data.map Char.toLower⟩

/-- Model of Python `str.strip()` with no arguments: removes leading and
trailing whitespace. -/
def pyStrip (s : String) : String :=
  ⟨((s.data.dropWhile Char.isWhitespace).reverse.dropWhile Char.isWhitespace).reverse⟩

/-- Model of Python `int(s)` on an already-stripped string: an optional
minus sign followed by at least one decimal digit; any other shape raises
`ValueError`, modelled as `none`. -/
def pyParseInt (s : String) : Option Int :=
  match s.data with
  | [] => none
  | '-' :: rest => (pyParseDigits rest).map (fun n => -(n : Int))
  | l => (pyParseDigits l).map (fun n => (n : Int))
where
  pyParseDigits (l : List Char) : Option Nat :=
    if l.isEmpty then none
    else l.foldl (fun acc c => match acc with
      | none => none
      | some n => if c.isDigit then some (n * 10 + (c.toNat - 48)) else none) (some 0)

/-- Code-point comparison of characters, used to model Python `str < str`
inside `sorted`. -/
def charLe (a b : Char) : Bool := a.toNat ≤ b.toNat

/-- Lexicographic comparison of character lists (Python string ordering). -/
def strLeAux : List Char → List Char → Bool
  | [], _ => true
  | _ :: _, [] => false
  | a :: as, b :: bs => if a = b then strLeAux as bs else charLe a b

/-- Model of Python `str <= str` comparison. -/
def strLe (a b : String) : Bool := strLeAux a.data b.data

/-- Insert into a sorted list, before the first element that is not
strictly smaller (keeps the insertion sort below stable, like Python's
`sorted`). -/
def insertSorted {α} (le : α → α → Bool) (x : α) : List α → List α
  | [] => [x]
  | y :: ys => if le x y then x :: y :: ys else y :: insertSorted le x ys

/-- Stable insertion sort, the model of Python `sorted(xs, key=...)` (the
key is pre-applied inside `le`). -/
def insSort {α} (le : α → α → Bool) : List α → List α
  | [] => []
  | x :: xs => insertSorted le x (insSort le xs)

mutual
/-- JSON-like Python value: the payloads stored in account records and
mapping entries. -/
inductive JVal where
  | null
  | bool (b : Bool)
  | int (n : Int)
  | str (s : String)
  | arr (a : JArr)
  | obj (o : JObj)
  deriving DecidableEq
/-- A Python list of `JVal`s (spine made explicit so that recursion and
induction over nested values stay structural). -/
inductive JArr where
  | nil
  | cons (hd : JVal) (tl : JArr)
  deriving DecidableEq
/-- A Python dict with string keys and `JVal` values, in insertion order. -/
inductive JObj where
  | nil
  | cons (k : String) (v : JVal) (tl : JObj)
  deriving DecidableEq
end



/-- Python exception classes raised by the code under study. -/
inductive PyErr where
  | fileNotFoundError
  | valueError
  | typeError
  | attributeError
  | nameError
  | keyError
  deriving DecidableEq

/-- A Python dict with string keys (account record, mapping entry), as an
association list in insertion order. -/
abbrev Entry := List (String × JVal)

/-- A provider's account collection: Python dict mapping account id to
account record. -/
abbrev Accounts := List (String × Entry)

/-- The mapping section: Python dict mapping Akahu id to mapping entry. -/
abbrev Mapping := List (String × Entry)

/-- Python `d[k]` / `d.get(k)` lookup (first matching key; an actual
Python dict never holds a duplicate key). -/
def alookup {α} : List (String × α) → String → Option α
  | [], _ => none
  | p :: tl, key => if p.1 = key then some p.2 else alookup tl key

/-- Python `k in d`. -/
def ahasKey {α} (l : List (String × α)) (key : String) : Bool :=
  (alookup l key).isSome

/-- Python `d[k] = v`: update the existing slot in place, else append. -/
def aset {α} (l : List (String × α)) (key : String) (v : α) : List (String × α) :=
  if l.any (fun p => p.1 = key) then
    l.map (fun p => if p.1 = key then (key, v) else p)
  else
    l ++ [(key, v)]

/-- Python `d.pop(k, None)`: drop the slot with that key, if any. -/
def apop {α} (l : List (String × α)) (key : String) : List (String × α) :=
  l.filter (fun p => p.1 ≠ key)

/-- Python `list(d.keys())`. -/
def akeys {α} (l : List (String × α)) : List String := l.map (·.1)

/-! ## Account Set Merger: `combine_accounts` (modules/account_mapper.py, lines 42-67)

The source also accepts list-shaped inputs and first re-keys them by
`acc['id']`; the reconciler always passes dict-shaped collections, which is
the form modelled here. The loop over `latest_accounts.items()` assigns
`date_first_loaded` on each fresh record (from the existing record when the
id is shared, defaulting to `current_date` when the existing record lacks
the field or the id is new) and stores the record; the second loop collects
the ids present only in the existing collection. -/

def combine_accounts (latest_accounts existing_accounts : Accounts)
    (current_date : String) : Accounts × List String :=
  (latest_accounts.map (fun p =>
    (p.1, match alookup existing_accounts p.1 with
      | some eacc =>
          aset p.2 "date_first_loaded"
            ((alookup eacc "date_first_loaded").getD (JVal.str current_date))
      | none => aset p.2 "date_first_loaded" (JVal.str current_date))),
   (existing_accounts.filter (fun q => (alookup latest_accounts q.1).isNone)).map (·.1))

/-! ## Change Detector: `check_for_changes` (modules/account_mapper.py, lines 317-350)
and its helpers `is_simple_value` (lines 12-14) and `shallow_compare_dicts`
(lines 16-20). Python `dict == dict` is order-insensitive comparison of key
sets and values, modelled by `pyDictEq`; `set(d1.keys()) != set(d2.keys())`
is modelled by `keySetEq`. -/

def is_simple_value : JVal → Bool
  | .null => true
  | .bool _ => true
  | .int _ => true
  | .str _ => true
  | .arr _ => false
  | .obj _ => false

/-- Python `==` between two dicts whose values are compared with `==`
(the filtered dicts compared by `shallow_compare_dicts` hold only simple
values, for which Python equality is the structural equality of `JVal`). -/
def pyDictEq (d1 d2 : Entry) : Bool :=
  d1.all (fun p => alookup d2 p.1 == some p.2) && d2.all (fun p => alookup d1 p.1 == some p.2)

def shallow_compare_dicts (dict1 dict2 : Entry) : Bool :=
  pyDictEq (dict1.filter (fun p => is_simple_value p.2))
           (dict2.filter (fun p => is_simple_value p.2))

/-- Python `set(l1.keys()) == set(l2.keys())`. -/
def keySetEq {α} (l1 l2 : List (String × α)) : Bool :=
  l1.all (fun p => ahasKey l2 p.1) && l2.all (fun p => ahasKey l1 p.1)

/-- One provider's branch of `check_for_changes`: flag stays true only if
the key sets agree and every record passes `shallow_compare_dicts` against
its counterpart (the `none` arm is unreachable under the key-set guard:
Python indexes `latest[key]` directly there). -/
def accountsMatchCheck (existing latest : Accounts) : Bool :=
  if keySetEq existing latest then
    existing.all (fun p =>
      match alookup latest p.1 with
      | some q => shallow_compare_dicts p.2 q
      | none => true)
  else false

def check_for_changes (existing_akahu latest_akahu existing_actual latest_actual
    existing_ynab latest_ynab : Accounts) : Bool × Bool × Bool :=
  (accountsMatchCheck existing_akahu latest_akahu,
   accountsMatchCheck existing_actual latest_actual,
   accountsMatchCheck existing_ynab latest_ynab)

/-- Well-formedness of a collection as produced by Python: no duplicate
ids, and no duplicate field names inside any record. -/
def wfAccounts (a : Accounts) : Prop :=
  (akeys a).Nodup ∧ ∀ p ∈ a, (akeys p.2).Nodup

instance : DecidablePred wfAccounts := fun a => by
  unfold wfAccounts; infer_instance

/-! ## Mapping Store, save side: `remove_seq` (modules/account_mapper.py,
lines 291-298) and `save_mapping` (lines 300-315).

`save_mapping` serializes `data_to_save` with `json.dumps`, re-parses it,
checks that the four required top-level keys are present, and only then
writes the serialized text; on our JSON value type the dump/parse round
trip is the identity, so the model returns the content written (`none`
when the required-key `ValueError` or the `.keys()` `AttributeError` on a
non-dict is raised — both are caught, logged and swallowed, leaving the
destination untouched). `save_mapping` itself never calls `remove_seq`;
the caller in `akahu_budget_mapping.py` (lines 719-720) applies
`remove_seq` to the data first, modelled by `save_pipeline`. -/

def JObj.lookup : JObj → String → Option JVal
  | .nil, _ => none
  | .cons k v tl, key => if k = key then some v else JObj.lookup tl key

def JObj.hasKey (o : JObj) (k : String) : Bool := (o.lookup k).isSome

mutual
def remove_seq : JVal → JVal
  | .obj o => .obj (removeSeqObj o)
  | .arr a => .arr (removeSeqArr a)
  | .null => .null
  | .bool b => .bool b
  | .int n => .int n
  | .str s => .str s
def removeSeqArr : JArr → JArr
  | .nil => .nil
  | .cons hd tl => .cons (remove_seq hd) (removeSeqArr tl)
def removeSeqObj : JObj → JObj
  | .nil => .nil
  | .cons k v tl =>
      if k = "seq" then removeSeqObj tl else .cons k (remove_seq v) (removeSeqObj tl)
end



mutual
/-- Whether a value contains a `"seq"` dictionary key at any depth. -/
def hasSeq : JVal → Bool
  | .obj o => hasSeqObj o
  | .arr a => hasSeqArr a
  | .null => false
  | .bool _ => false
  | .int _ => false
  | .str _ => false
def hasSeqArr : JArr → Bool
  | .nil => false
  | .cons hd tl => hasSeq hd || hasSeqArr tl
def hasSeqObj : JObj → Bool
  | .nil => false
  | .cons k v tl => k = "seq" || hasSeq v || hasSeqObj tl
end



def save_mapping (data_to_save : JVal) : Option JVal :=
  match data_to_save with
  | .obj o =>
      if ["akahu_accounts", "actual_accounts", "ynab_accounts", "mapping"].all
          (fun k => JObj.hasKey o k) then
        some data_to_save
      else none
  | _ => none

/-- The save call chain of `akahu_budget_mapping.py` `main`
(`data_without_seq = remove_seq(data_to_save); save_mapping(data_without_seq)`). -/
def save_pipeline (data_to_save : JVal) : Option JVal :=
  save_mapping (remove_seq data_to_save)

/-- Test datum for the save path: all four required top-level keys
present, with a nested `seq` key inside the account collection. -/
def saveTestData : JVal :=
  .obj (.cons "akahu_accounts"
          (.obj (.cons "a" (.obj (.cons "seq" (.int 1) (.cons "id" (.str "a") .nil))) .nil))
        (.cons "actual_accounts" (.obj .nil)
        (.cons "ynab_accounts" (.obj .nil)
        (.cons "mapping" (.obj .nil) .nil))))

/-! ## Interactive Matcher and Suggestion Strategies
(`validate_user_input`, lines 112-129; `get_openai_match_suggestion`,
lines 131-173; `get_fuzzy_match_suggestion`, lines 175-198; `seq_to_acct`,
lines 200-202; `match_accounts`, lines 204-289 of
modules/account_mapper.py).

Target accounts reaching these functions always carry `id`, `name` and the
`seq` assigned by `match_accounts`, so they are modelled as a structure;
Akahu accounts carry `name` and `connection`. The OpenAI call is a
collaborator returning either a reply string or an exception, passed in as
an `Except`; the fuzzywuzzy scorer is an abstract `score` function, with
`process.extractOne` modelled as a first-maximum scan. Console output and
the prompt text (the only consumers of `connection` and of the suggestion
value itself) are display-only and elided; `input()` is an explicit stream
`inputs : Nat → String` consumed once per prompted account. -/

structure TargetAccount where
  id : String
  name : String
  seq : Int
  deriving DecidableEq

structure AkahuAccount where
  name : String
  connection : String
  deriving DecidableEq

/-- The generator-`any` test used throughout the matcher: some mapping
entry already claims this target id under `target_account_key`. -/
def id_is_claimed (akahu_to_account_mapping : Mapping) (target_account_key : String)
    (account_id : String) : Bool :=
  akahu_to_account_mapping.any
    (fun p => alookup p.2 target_account_key == some (.str account_id))

def validate_user_input (response_content : String) (target_accounts : List TargetAccount)
    (akahu_to_account_mapping : Mapping) (target_account_key : String) : Option Int :=
  match pyParseInt response_content with
  | none => none
  | some chosen_seq =>
    if chosen_seq = 0 then some 0
    else
      match target_accounts.find? (fun account => account.seq == chosen_seq) with
      | some account =>
          if id_is_claimed akahu_to_account_mapping target_account_key account.id then
            none
          else some chosen_seq
      | none => none

def seq_to_acct (suggested_index : Int) (target_accounts : List TargetAccount) :
    Option TargetAccount :=
  target_accounts.find? (fun acct => acct.seq == suggested_index)

/-- Model of `fuzzywuzzy.process.extractOne`: best (first-maximum) choice
with its score; `none` on an empty candidate list. -/
def extractOneAux (score : String → String → Nat) (query : String) :
    (String × Nat) → List String → (String × Nat)
  | best, [] => best
  | best, n :: tl =>
      extractOneAux score query (if score query n > best.2 then (n, score query n) else best) tl

def extractOne (score : String → String → Nat) (query : String) :
    List String → Option (String × Nat)
  | [] => none
  | n :: tl => some (extractOneAux score query (n, score query n) tl)

/-- Model of `account_names.index(best_match_name)` followed by
`unmapped_accounts[matched_index][1]`: the seq paired with the first
occurrence of the name (the fallback 0 is unreachable because
`extractOne` returns a name from the list). -/
def firstSeqWithName : List (String × Int) → String → Int
  | [], _ => 0
  | p :: tl, b => if p.1 = b then p.2 else firstSeqWithName tl b

/-- The `unmapped_accounts` list of `(name, seq)` pairs built by the loop
at the top of `get_fuzzy_match_suggestion`. -/
def unmapped_pairs (target_accounts : List TargetAccount)
    (akahu_to_account_mapping : Mapping) (target_account_key : String) :
    List (String × Int) :=
  (target_accounts.filter
      (fun t => !(id_is_claimed akahu_to_account_mapping target_account_key t.id))).map
    (fun t => (t.name, t.seq))

def get_fuzzy_match_suggestion (akahu_account : AkahuAccount)
    (target_accounts : List TargetAccount) (akahu_to_account_mapping : Mapping)
    (target_account_key : String) (score : String → String → Nat) : Int :=
  match extractOne score akahu_account.name
      ((unmapped_pairs target_accounts akahu_to_account_mapping target_account_key).map (·.1)) with
  | none => 0
  | some (best_match_name, confidence) =>
      if confidence ≥ 50 then
        firstSeqWithName
          (unmapped_pairs target_accounts akahu_to_account_mapping target_account_key)
          best_match_name
      else 0

def get_openai_match_suggestion (akahu_account : AkahuAccount)
    (target_accounts : List TargetAccount) (akahu_to_account_mapping : Mapping)
    (target_account_key : String) (score : String → String → Nat)
    (api_reply : Except String String) : Int :=
  match api_reply with
  | .ok reply =>
      match validate_user_input (pyStrip reply) target_accounts
          akahu_to_account_mapping target_account_key with
      | some chosen_index => chosen_index
      | none => get_fuzzy_match_suggestion akahu_account target_accounts
          akahu_to_account_mapping target_account_key score
  | .error _ => get_fuzzy_match_suggestion akahu_account target_accounts
      akahu_to_account_mapping target_account_key score

/-- The `if account_type == 'actual' ... elif 'ynab' ... else raise` header
of `match_accounts`. -/
def target_keys (account_type : String) : Option (String × String) :=
  if account_type = "actual" then some ("actual_account_id", "actual_account_name")
  else if account_type = "ynab" then some ("ynab_account_id", "ynab_account_name")
  else none

/-- Python `os.getenv` results written into mapping fields (`None` becomes
JSON null). -/
def envJ : Option String → JVal
  | some s => .str s
  | none => .null

/-- `d.setdefault(k, {}).update(fields)`. -/
def setdefaultUpdate (m : Mapping) (k : String) (fields : List (String × JVal)) : Mapping :=
  aset m k (fields.foldl (fun e p => aset e p.1 p.2) ((alookup m k).getD []))

/-- `seq` assignment: name-sorted (case-insensitive, stable) enumeration
starting from 1. -/
def assignSeqs (target_accounts : List TargetAccount) : List TargetAccount :=
  ((insSort (fun a b => strLe (pyLower a.name) (pyLower b.name)) target_accounts).enum).map
    (fun p => { p.2 with seq := (p.1 : Int) + 1 })

/-- The fields written by the do-not-map branch of `match_accounts`
(user entered the sentinel `0`). -/
def do_not_map_fields (account_type akahu_id akahu_name now : String) :
    List (String × JVal) :=
  [(account_type ++ "_do_not_map", .bool true),
   ("akahu_id", .str akahu_id),
   ("akahu_name", .str akahu_name),
   (account_type ++ "_matched_date", .str now)]

/-- The fields written by the confirmed-match branch of `match_accounts`:
both budget-id fields are always written, the one for the provider not
being matched receiving `None`. -/
def confirm_update_fields (target_account_key target_account_name : String)
    (selected : TargetAccount) (akahu_id akahu_name account_type : String)
    (actual_sync_id ynab_budget_id : Option String) (now : String) :
    List (String × JVal) :=
  [(target_account_key, .str selected.id),
   (target_account_name, .str selected.name),
   ("akahu_id", .str akahu_id),
   ("akahu_name", .str akahu_name),
   (account_type ++ "_matched_date", .str now),
   ("actual_budget_id", if account_type = "actual" then envJ actual_sync_id else .null),
   ("ynab_budget_id", if account_type = "ynab" then envJ ynab_budget_id else .null)]

/-- The per-source-account loop of `match_accounts`. Suggestion calls
(OpenAI/fuzzy) influence only the printed prompt, never the state, and
are elided; a skipped (already mapped / do-not-map) account consumes no
input; every other account consumes exactly one `input()`. -/
def matchLoop (m : Mapping) (accts : List (String × AkahuAccount))
    (targets_list : List TargetAccount)
    (account_type target_account_key target_account_name : String)
    (inputs : Nat → String) (i : Nat)
    (actual_sync_id ynab_budget_id : Option String) (now : String) : Mapping :=
  match accts with
  | [] => m
  | (akahu_id, akahu_account) :: rest =>
      if (match alookup m akahu_id with
          | some e => ahasKey e target_account_key || ahasKey e (account_type ++ "_do_not_map")
          | none => false) then
        matchLoop m rest targets_list account_type target_account_key target_account_name
          inputs i actual_sync_id ynab_budget_id now
      else
        match validate_user_input (inputs i) targets_list m target_account_key with
        | none =>
            matchLoop m rest targets_list account_type target_account_key target_account_name
              inputs (i + 1) actual_sync_id ynab_budget_id now
        | some validated_index =>
            if validated_index = 0 then
              matchLoop (setdefaultUpdate m akahu_id
                  (do_not_map_fields account_type akahu_id akahu_account.name now))
                rest targets_list account_type target_account_key target_account_name
                inputs (i + 1) actual_sync_id ynab_budget_id now
            else
              match seq_to_acct validated_index targets_list with
              | some selected_account =>
                  matchLoop (setdefaultUpdate m akahu_id
                      (confirm_update_fields target_account_key target_account_name
                        selected_account akahu_id akahu_account.name account_type
                        actual_sync_id ynab_budget_id now))
                    rest targets_list account_type target_account_key target_account_name
                    inputs (i + 1) actual_sync_id ynab_budget_id now
              | none =>
                  matchLoop m rest targets_list account_type target_account_key
                    target_account_name inputs (i + 1) actual_sync_id ynab_budget_id now

def match_accounts (akahu_to_account_mapping : Mapping)
    (akahu_accounts : List (String × AkahuAccount))
    (target_accounts : List TargetAccount) (account_type : String)
    (inputs : Nat → String) (actual_sync_id ynab_budget_id : Option String)
    (now : String) : Except PyErr Mapping :=
  match target_keys account_type with
  | none => .error .valueError
  | some (target_account_key, target_account_name) =>
      .ok (matchLoop akahu_to_account_mapping
        (insSort (fun a b => strLe (pyLower a.2.name) (pyLower b.2.name)) akahu_accounts)
        (assignSeqs target_accounts)
        account_type target_account_key target_account_name inputs 0
        actual_sync_id ynab_budget_id now)

/-- The claim-exclusivity invariant: no two distinct mapping entries hold
the same target id under `key`. -/
def uniqueTargetIds (m : Mapping) (key : String) : Prop :=
  ∀ k1 k2 e1 e2 v, alookup m k1 = some e1 → alookup m k2 = some e2 → k1 ≠ k2 →
    alookup e1 key = some (.str v) → alookup e2 key = some (.str v) → False

/-! ## Mapping Reconciler: `merge_and_update_mapping`
(modules/account_mapper.py, lines 69-110).

The function combines the three account collections, then, when any
deletion list is non-empty, prompts for confirmation. On an affirmative
answer (`confirmation.lower() == 'y'`) it pops deleted Akahu ids from the
mapping, runs the Actual field-group loop over the pairs
`[(aid, aid) for aid in deleted_actual_accounts]` (which pairs each
deleted Actual id with itself in place of an Akahu id), and then evaluates
the YNAB pair list `[(yid, aid) for yid in deleted_ynab_accounts]`.
In Python 3 the loop variable `aid` of the previous comprehension does not
escape its own scope and nothing else in the function binds `aid`, so this
expression raises `NameError` as soon as `deleted_ynab_accounts` is
non-empty; with an empty list the body never evaluates and no error is
raised. The model mirrors this with `PyErr.nameError`. -/

def actual_strip_keys : List String :=
  ["actual_account_id", "actual_budget_id", "actual_budget_name", "actual_account_name"]

def merge_and_update_mapping (existing_mapping : Mapping)
    (latest_akahu_accounts latest_actual_accounts latest_ynab_accounts
     existing_akahu_accounts existing_actual_accounts existing_ynab_accounts : Accounts)
    (confirmation : String) (current_date : String) :
    Except PyErr (Mapping × Accounts × Accounts × Accounts) :=
  if (combine_accounts latest_akahu_accounts existing_akahu_accounts current_date).2 ≠ []
      ∨ (combine_accounts latest_actual_accounts existing_actual_accounts current_date).2 ≠ []
      ∨ (combine_accounts latest_ynab_accounts existing_ynab_accounts current_date).2 ≠ [] then
    if pyLower confirmation = "y" then
      let updated1 :=
        ((combine_accounts latest_akahu_accounts existing_akahu_accounts current_date).2).foldl
          (fun m akahu_id => apop m akahu_id) existing_mapping
      let updated2 :=
        (((combine_accounts latest_actual_accounts existing_actual_accounts current_date).2).map
            (fun aid => (aid, aid))).foldl
          (fun m p =>
            match alookup m p.2 with
            | some e =>
                if alookup e "actual_account_id" = some (.str p.1) then
                  aset m p.2 (actual_strip_keys.foldl apop e)
                else m
            | none => m) updated1
      if (combine_accounts latest_ynab_accounts existing_ynab_accounts current_date).2 ≠ [] then
        .error .nameError
      else
        .ok (updated2,
          (combine_accounts latest_akahu_accounts existing_akahu_accounts current_date).1,
          (combine_accounts latest_actual_accounts existing_actual_accounts current_date).1,
          (combine_accounts latest_ynab_accounts existing_ynab_accounts current_date).1)
    else
      .ok (existing_mapping,
        (combine_accounts latest_akahu_accounts existing_akahu_accounts current_date).1,
        (combine_accounts latest_actual_accounts existing_actual_accounts current_date).1,
        (combine_accounts latest_ynab_accounts existing_ynab_accounts current_date).1)
  else
    .ok (existing_mapping,
      (combine_accounts latest_akahu_accounts existing_akahu_accounts current_date).1,
      (combine_accounts latest_actual_accounts existing_actual_accounts current_date).1,
      (combine_accounts latest_ynab_accounts existing_ynab_accounts current_date).1)

/-! ## Mapping Store, load side: `load_existing_mapping`
(modules/account_mapper.py, lines 22-40).

The store file is modelled as `Option (Option JVal)`: `none` is a missing
file (`FileNotFoundError`), `some none` content that fails to parse
(`json.JSONDecodeError`, re-raised as `ValueError`), `some (some data)`
parsed content. The required-field test `all(field in data ...)` uses
Python `in`, which is key membership on a dict, element equality on a
list, substring on a string, and `TypeError` otherwise; the plain
`ValueError` raised when the test fails is not caught by the narrower
`except json.JSONDecodeError` clause and propagates. `data.get` on a
non-dict raises `AttributeError`. The legacy upgrade
`{entry['akahu_id']: entry for entry in mapping if 'akahu_id' in entry}`
builds a Python dict whose keys are the embedded ids (arbitrary hashable
values, held in `PyDict`); subscripting a non-dict entry or using an
unhashable key raises `TypeError`. -/

/-- Whether the first character list is an initial segment of the
second. -/
def charsStart : List Char → List Char → Bool
  | [], _ => true
  | _ :: _, [] => false
  | a :: as, b :: bs => a = b && charsStart as bs

/-- Whether the first character list occurs contiguously inside the
second. -/
def charsInside : List Char → List Char → Bool
  | pat, [] => pat.isEmpty
  | pat, c :: tl => charsStart pat (c :: tl) || charsInside pat tl

/-- Python `sub in s` for strings: substring test. -/
def strContains (s pat : String) : Bool := charsInside pat.data s.data

def jarrContains (a : JArr) (v : JVal) : Bool :=
  match a with
  | .nil => false
  | .cons hd tl => hd == v || jarrContains tl v

/-- Python `field in data`. -/
def pyIn (field : String) (data : JVal) : Except PyErr Bool :=
  match data with
  | .obj o => .ok (o.hasKey field)
  | .arr a => .ok (jarrContains a (.str field))
  | .str s => .ok (strContains s field)
  | _ => .error .typeError

def required_fields : List String :=
  ["akahu_accounts", "actual_accounts", "ynab_accounts", "mapping"]

/-- `all(field in data for field in fields)` with Python's short-circuit
and error propagation. -/
def requiredFieldsCheckGo (data : JVal) : List String → Except PyErr Bool
  | [] => .ok true
  | f :: rest =>
      match pyIn f data with
      | .error e => .error e
      | .ok false => .ok false
      | .ok true => requiredFieldsCheckGo data rest

/-- Python subscript `data[k]` with a string key. -/
def jSubscript (data : JVal) (k : String) : Except PyErr JVal :=
  match data with
  | .obj o =>
      match o.lookup k with
      | some v => .ok v
      | none => .error .keyError
  | _ => .error .typeError

/-- A Python dict keyed by arbitrary (hashable) values, for the upgraded
legacy mapping. -/
abbrev PyDict := List (JVal × JVal)

def hashable : JVal → Bool
  | .arr _ => false
  | .obj _ => false
  | _ => true

def pyDictInsert (d : PyDict) (k v : JVal) : PyDict :=
  if d.any (fun p => p.1 == k) then
    d.map (fun p => if p.1 == k then (k, v) else p)
  else d ++ [(k, v)]

def upgradeLegacyMapping : JArr → PyDict → Except PyErr PyDict
  | .nil, acc => .ok acc
  | .cons entry tl, acc =>
      match pyIn "akahu_id" entry with
      | .error e => .error e
      | .ok false => upgradeLegacyMapping tl acc
      | .ok true =>
          match jSubscript entry "akahu_id" with
          | .error e => .error e
          | .ok k =>
              if hashable k then upgradeLegacyMapping tl (pyDictInsert acc k entry)
              else .error .typeError

/-- The mapping section as returned: either the parsed value unchanged
(canonical dict form, or any other non-list value) or the dict built by
the legacy-list upgrade. -/
inductive MappingSection where
  | plain (v : JVal)
  | upgraded (d : PyDict)
  deriving DecidableEq

def load_tuple (data : JVal) (msec : MappingSection) :
    Except PyErr (JVal × JVal × JVal × MappingSection) :=
  match jSubscript data "akahu_accounts" with
  | .error e => .error e
  | .ok a1 =>
      match jSubscript data "actual_accounts" with
      | .error e => .error e
      | .ok a2 =>
          match jSubscript data "ynab_accounts" with
          | .error e => .error e
          | .ok a3 => .ok (a1, a2, a3, msec)

def load_existing_mapping (file : Option (Option JVal)) :
    Except PyErr (JVal × JVal × JVal × MappingSection) :=
  match file with
  | none => .error .fileNotFoundError
  | some none => .error .valueError
  | some (some data) =>
      match requiredFieldsCheckGo data required_fields with
      | .error e => .error e
      | .ok false => .error .valueError
      | .ok true =>
          match data with
          | .obj o =>
              match (o.lookup "mapping").getD (.obj .nil) with
              | .arr entries =>
                  match upgradeLegacyMapping entries [] with
                  | .error e => .error e
                  | .ok d => load_tuple data (.upgraded d)
              | v => load_tuple data (.plain v)
          | _ => .error .attributeError

/-- The legacy-format entry and store used as the witness input. -/
def legacyEntry : JVal :=
  .obj (.cons "akahu_id" (.str "ak1") (.cons "ynab_account_id" (.str "y1") .nil))

def legacyStore : JObj :=
  .cons "akahu_accounts" (.obj .nil)
  (.cons "actual_accounts" (.obj .nil)
  (.cons "ynab_accounts" (.obj .nil)
  (.cons "mapping" (.arr (.cons legacyEntry .nil)) .nil)))

/-! ## Theorems -/

theorem alookup_map_value {α} (g : String → α → α) (l : List (String × α)) (k : String) :
    alookup (l.map (fun p => (p.1, g p.1 p.2))) k = (alookup l k).map (g k) := by
  induction l with
  | nil => rfl
  | cons hd tl ih =>
      simp only [List.map_cons, alookup]
      by_cases h : hd.1 = k
      · subst h; simp [alookup]
      · simp [alookup, h, ih]

theorem alookup_map_update_ne {α} (l : List (String × α)) (k k' : String) (v : α)
    (hne : k' ≠ k) :
    alookup (l.map (fun p => if p.1 = k then (k, v) else p)) k' = alookup l k' := by
  induction l with
  | nil => rfl
  | cons hd tl ih =>
      simp only [List.map_cons, alookup]
      by_cases h1 : hd.1 = k
      · rw [if_pos h1]
        have hk' : ¬ (k = k') := Ne.symm hne
        have hd' : ¬ (hd.1 = k') := by rw [h1]; exact hk'
        simp only [if_neg hk', if_neg hd']
        exact ih
      · rw [if_neg h1]
        by_cases h2 : hd.1 = k'
        · simp [if_pos h2]
        · simp only [if_neg h2]; exact ih

theorem alookup_map_update_mem {α} (l : List (String × α)) (k : String) (v : α)
    (hmem : l.any (fun p => p.1 = k) = true) :
    alookup (l.map (fun p => if p.1 = k then (k, v) else p)) k = some v := by
  induction l with
  | nil => simp at hmem
  | cons hd tl ih =>
      simp only [List.any_cons, Bool.or_eq_true, decide_eq_true_eq] at hmem
      simp only [List.map_cons, alookup]
      by_cases h1 : hd.1 = k
      · rw [if_pos h1]; simp
      · rw [if_neg h1]
        rcases hmem with h | h
        · exact absurd h h1
        · simp only [if_neg h1]
          exact ih h

theorem alookup_append_new {α} (l : List (String × α)) (k k' : String) (v : α)
    (hmem : l.any (fun p => p.1 = k) = false) :
    alookup (l ++ [(k, v)]) k' = if k' = k then some v else alookup l k' := by
  induction l with
  | nil =>
      simp only [List.nil_append, alookup]
      by_cases h : k = k'
      · simp [h]
      · rw [if_neg h, if_neg (fun hh => h hh.symm)]
  | cons hd tl ih =>
      rw [List.any_cons, Bool.or_eq_false_iff] at hmem
      have h1 : ¬ (hd.1 = k) := by
        have := hmem.1; intro hc; simp [hc] at this
      have h2 : tl.any (fun p => decide (p.1 = k)) = false := hmem.2
      simp only [List.cons_append, alookup]
      by_cases h3 : hd.1 = k'
      · have hkk : ¬ (k' = k) := by intro hc; exact h1 (h3.trans hc)
        rw [if_pos h3, if_neg hkk, if_pos h3]
      · rw [if_neg h3, List.append_eq, ih h2]
        by_cases h4 : k' = k
        · simp [h4]
        · simp [h4, if_neg h3]

theorem alookup_aset {α} (l : List (String × α)) (k k' : String) (v : α) :
    alookup (aset l k v) k' = if k' = k then some v else alookup l k' := by
  unfold aset
  by_cases hmem : l.any (fun p => p.1 = k)
  · simp only [hmem, if_true]
    by_cases h : k' = k
    · subst h; simp [alookup_map_update_mem l k' v hmem]
    · simp [h, alookup_map_update_ne l k k' v h]
  · simp only [hmem, if_false]
    exact alookup_append_new l k k' v (Bool.eq_false_iff.mpr hmem)

theorem alookup_isSome_iff {α} (l : List (String × α)) (k : String) :
    (alookup l k).isSome = true ↔ ∃ p ∈ l, p.1 = k := by
  induction l with
  | nil => simp [alookup]
  | cons hd tl ih =>
      simp only [alookup]
      by_cases h : hd.1 = k
      · simp [h]
      · simp only [h, if_false, ih]
        constructor
        · rintro ⟨p, hp, hk⟩; exact ⟨p, List.mem_cons_of_mem _ hp, hk⟩
        · rintro ⟨p, hp, hk⟩
          rcases List.mem_cons.mp hp with rfl | hp'
          · exact absurd hk h
          · exact ⟨p, hp', hk⟩

theorem alookup_mem {α} (l : List (String × α)) (k : String) (v : α)
    (h : alookup l k = some v) : (k, v) ∈ l := by
  induction l with
  | nil => simp [alookup] at h
  | cons hd tl ih =>
      simp only [alookup] at h
      by_cases hk : hd.1 = k
      · simp only [hk, if_true, Option.some.injEq] at h
        subst h
        have : hd = (k, hd.2) := by
          cases hd; simp_all
        rw [this] at *
        exact List.mem_cons_self _ _
      · simp only [hk, if_false] at h
        exact List.mem_cons_of_mem _ (ih h)

/-- C1: for every id present in both inputs, `combine_accounts` returns the
fresh (latest) record with every field unchanged except
`date_first_loaded`, which is copied from the existing record when that
record has the field and is the current timestamp otherwise; for an id
present only in the latest input, `date_first_loaded` is the merge time.
The existing `date_first_loaded` is never replaced by the fetch time. -/
theorem combine_accounts_preserves_date_first_loaded
    (latest existing : Accounts) (now id : String) (acc : Entry)
    (h : alookup latest id = some acc) :
    ∃ d : JVal,
      alookup (combine_accounts latest existing now).1 id
          = some (aset acc "date_first_loaded" d)
      ∧ (∀ k, k ≠ "date_first_loaded" →
          alookup (aset acc "date_first_loaded" d) k = alookup acc k)
      ∧ alookup (aset acc "date_first_loaded" d) "date_first_loaded" = some d
      ∧ (∀ eacc, alookup existing id = some eacc →
          d = (alookup eacc "date_first_loaded").getD (JVal.str now))
      ∧ (alookup existing id = none → d = JVal.str now) := by
  refine ⟨(match alookup existing id with
    | some eacc => (alookup eacc "date_first_loaded").getD (JVal.str now)
    | none => JVal.str now), ?_, ?_, ?_, ?_, ?_⟩
  · show alookup (latest.map (fun p => (p.1, _))) id = _
    rw [alookup_map_value (fun i a => match alookup existing i with
      | some eacc => aset a "date_first_loaded"
          ((alookup eacc "date_first_loaded").getD (JVal.str now))
      | none => aset a "date_first_loaded" (JVal.str now)) latest id, h]
    cases hE : alookup existing id <;> simp
  · intro k hk
    rw [alookup_aset]
    simp [hk]
  · rw [alookup_aset]
    simp
  · intro eacc hE
    simp [hE]
  · intro hE
    simp [hE]

/-- Witness for `combine_accounts_preserves_date_first_loaded` at a
concrete shared id whose existing record carries `date_first_loaded`. -/
theorem combine_accounts_preserves_date_first_loaded_witness :
    ∃ d : JVal,
      alookup (combine_accounts
          [("a", [("balance", JVal.int 5)])]
          [("a", [("date_first_loaded", JVal.str "old"), ("balance", JVal.int 4)])]
          "now").1 "a"
          = some (aset [("balance", JVal.int 5)] "date_first_loaded" d)
      ∧ (∀ k, k ≠ "date_first_loaded" →
          alookup (aset [("balance", JVal.int 5)] "date_first_loaded" d) k
            = alookup [("balance", JVal.int 5)] k)
      ∧ alookup (aset [("balance", JVal.int 5)] "date_first_loaded" d) "date_first_loaded"
          = some d
      ∧ (∀ eacc,
          alookup [("a", [("date_first_loaded", JVal.str "old"), ("balance", JVal.int 4)])] "a"
            = some eacc →
          d = (alookup eacc "date_first_loaded").getD (JVal.str "now"))
      ∧ (alookup [("a", [("date_first_loaded", JVal.str "old"), ("balance", JVal.int 4)])] "a"
            = none → d = JVal.str "now") :=
  combine_accounts_preserves_date_first_loaded
    [("a", [("balance", JVal.int 5)])]
    [("a", [("date_first_loaded", JVal.str "old"), ("balance", JVal.int 4)])]
    "now" "a" [("balance", JVal.int 5)] (by decide)

/-- C8 counterexample: an id present only in the existing collection is
reported in the deletion list, but its record is dropped from the combined
collection rather than remaining present. -/
theorem combine_accounts_drops_deleted_counterexample :
    "a" ∈ (combine_accounts [] [("a", [("name", JVal.str "x")])] "t").2
    ∧ alookup (combine_accounts [] [("a", [("name", JVal.str "x")])] "t").1 "a" = none := by
  decide

/-- C8 (amended): ids present only in the existing collection are exactly
the reported deletion list, and the combined collection holds exactly the
ids of the latest fetch, so an existing-only record does not survive into
the combined collection; only the mapping entry (pruned separately by the
Reconciler after confirmation) outlives it. -/
theorem combine_accounts_deletion_report (latest existing : Accounts) (now id : String) :
    (id ∈ (combine_accounts latest existing now).2 ↔
      ahasKey existing id = true ∧ ahasKey latest id = false)
    ∧ ahasKey (combine_accounts latest existing now).1 id = ahasKey latest id := by
  constructor
  · constructor
    · intro hmem
      rcases List.mem_map.mp hmem with ⟨q, hq, hid⟩
      rcases List.mem_filter.mp hq with ⟨hq', hnone⟩
      subst hid
      constructor
      · exact (alookup_isSome_iff existing q.1).mpr ⟨q, hq', rfl⟩
      · unfold ahasKey
        have hn := Option.isNone_iff_eq_none.mp hnone
        simp [hn]
    · rintro ⟨h1, h2⟩
      rcases (alookup_isSome_iff existing id).mp h1 with ⟨q, hq, hid⟩
      refine List.mem_map.mpr ⟨q, List.mem_filter.mpr ⟨hq, ?_⟩, hid⟩
      unfold ahasKey at h2
      rw [hid]
      cases hcase : alookup latest id with
      | none => simp [hcase]
      | some v => rw [hcase] at h2; simp at h2
  · unfold ahasKey
    show ((alookup (latest.map (fun p => (p.1, _))) id).isSome) = _
    rw [alookup_map_value (fun i a => match alookup existing i with
      | some eacc => aset a "date_first_loaded"
          ((alookup eacc "date_first_loaded").getD (JVal.str now))
      | none => aset a "date_first_loaded" (JVal.str now)) latest id]
    cases alookup latest id <;> simp

theorem alookup_self_of_nodup {α} (l : List (String × α)) (hnd : (akeys l).Nodup) :
    ∀ p ∈ l, alookup l p.1 = some p.2 := by
  induction l with
  | nil => intro p hp; simp at hp
  | cons hd tl ih =>
      intro p hp
      rcases List.mem_cons.mp hp with rfl | hp'
      · simp [alookup]
      · have hnd' : (akeys tl).Nodup := (List.nodup_cons.mp hnd).2
        have hne : hd.1 ≠ p.1 := by
          intro hc
          have hmem : p.1 ∈ akeys tl := List.mem_map.mpr ⟨p, hp', rfl⟩
          apply (List.nodup_cons.mp hnd).1
          show hd.1 ∈ List.map _ tl
          rw [hc]
          exact hmem
        simp only [alookup, if_neg hne]
        exact ih hnd' p hp'

theorem alookup_eq_none_of_not_mem {α} (l : List (String × α)) (k : String)
    (h : k ∉ akeys l) : alookup l k = none := by
  induction l with
  | nil => rfl
  | cons hd tl ih =>
      unfold akeys at h
      rw [List.map_cons, List.mem_cons, not_or] at h
      have h1 : ¬ (hd.1 = k) := fun hc => h.1 hc.symm
      simp only [alookup, if_neg h1]
      exact ih h.2

theorem akeys_filter_sublist {α} (l : List (String × α)) (q : String × α → Bool) :
    List.Sublist (akeys (l.filter q)) (akeys l) :=
  List.Sublist.map _ (List.filter_sublist l)

theorem alookup_filter_nodup {α} (l : List (String × α)) (q : String × α → Bool)
    (k : String) (hnd : (akeys l).Nodup) :
    alookup (l.filter q) k
      = (alookup l k).bind (fun v => if q (k, v) then some v else none) := by
  induction l with
  | nil => rfl
  | cons hd tl ih =>
      have hnd' : (akeys tl).Nodup := (List.nodup_cons.mp hnd).2
      by_cases h1 : hd.1 = k
      · have hknotin : k ∉ akeys tl := h1 ▸ (List.nodup_cons.mp hnd).1
        have htl : alookup tl k = none := alookup_eq_none_of_not_mem tl k hknotin
        have htlf : alookup (tl.filter q) k = none := by
          apply alookup_eq_none_of_not_mem
          intro hc
          exact hknotin ((akeys_filter_sublist tl q).mem hc)
        have hdpair : hd = (k, hd.2) := by
          cases hd with
          | mk a b => simp at h1; simp [h1]
        by_cases h2 : q hd
        · rw [List.filter_cons_of_pos h2]
          simp only [alookup, if_pos h1, htlf]
          rw [hdpair] at h2
          simp [h2]
        · rw [List.filter_cons_of_neg h2]
          simp only [alookup, if_pos h1, htlf]
          rw [hdpair] at h2
          simp [h2, htlf]
      · by_cases h2 : q hd
        · rw [List.filter_cons_of_pos h2]
          simp only [alookup, if_neg h1]
          exact ih hnd'
        · rw [List.filter_cons_of_neg h2]
          simp only [alookup, if_neg h1]
          exact ih hnd'

theorem pyDictEq_refl (d : Entry) (hnd : (akeys d).Nodup) : pyDictEq d d = true := by
  unfold pyDictEq
  rw [Bool.and_eq_true]
  constructor <;>
  · rw [List.all_eq_true]
    intro p hp
    rw [beq_iff_eq]
    exact alookup_self_of_nodup d hnd p hp

theorem shallow_compare_dicts_refl (d : Entry) (hnd : (akeys d).Nodup) :
    shallow_compare_dicts d d = true := by
  unfold shallow_compare_dicts
  exact pyDictEq_refl _ (hnd.sublist (akeys_filter_sublist d _))

theorem keySetEq_refl {α} (l : List (String × α)) : keySetEq l l = true := by
  unfold keySetEq
  rw [Bool.and_eq_true]
  constructor <;>
  · rw [List.all_eq_true]
    intro p hp
    unfold ahasKey
    exact (alookup_isSome_iff l p.1).mpr ⟨p, hp, rfl⟩

theorem accountsMatchCheck_refl (a : Accounts) (hwf : wfAccounts a) :
    accountsMatchCheck a a = true := by
  unfold accountsMatchCheck
  rw [if_pos (keySetEq_refl a)]
  rw [List.all_eq_true]
  intro p hp
  rw [alookup_self_of_nodup a hwf.1 p hp]
  exact shallow_compare_dicts_refl p.2 (hwf.2 p hp)

theorem akeys_aset_nodup {α} (l : List (String × α)) (k : String) (v : α)
    (hnd : (akeys l).Nodup) : (akeys (aset l k v)).Nodup := by
  unfold aset
  by_cases hmem : l.any (fun p => p.1 = k)
  · rw [if_pos hmem]
    have : akeys (l.map (fun p => if p.1 = k then (k, v) else p)) = akeys l := by
      unfold akeys
      rw [List.map_map]
      apply List.map_congr_left
      intro p _
      by_cases h : p.1 = k
      · simp [h]
      · simp [h]
    rw [this]; exact hnd
  · rw [if_neg hmem]
    unfold akeys
    rw [List.map_append]
    apply List.Nodup.append hnd (by simp)
    intro x hx hx'
    simp only [List.map_cons, List.map_nil, List.mem_singleton] at hx'
    subst hx'
    rcases List.mem_map.mp hx with ⟨p, hp, hk⟩
    exact hmem (List.any_eq_true.mpr ⟨p, hp, by simp [hk]⟩)

theorem accountsMatchCheck_false_iff (existing latest : Accounts)
    (hnd : (akeys existing).Nodup) :
    accountsMatchCheck existing latest = false ↔
      keySetEq existing latest = false ∨
      ∃ id e f, alookup existing id = some e ∧ alookup latest id = some f ∧
        shallow_compare_dicts e f = false := by
  unfold accountsMatchCheck
  by_cases hks : keySetEq existing latest = true
  · rw [if_pos hks]
    constructor
    · intro hall
      have hne : ¬ (existing.all (fun p =>
          match alookup latest p.1 with
          | some q => shallow_compare_dicts p.2 q
          | none => true) = true) := by rw [hall]; simp
      rw [List.all_eq_true] at hne
      push_neg at hne
      rcases hne with ⟨p, hp, hpred⟩
      right
      cases hl : alookup latest p.1 with
      | none => rw [hl] at hpred; simp at hpred
      | some f =>
          refine ⟨p.1, p.2, f, alookup_self_of_nodup existing hnd p hp, hl, ?_⟩
          rw [hl] at hpred
          simp only at hpred
          exact Bool.eq_false_iff.mpr hpred
    · rintro (hks' | ⟨id, e, f, he, hf, hsf⟩)
      · rw [hks] at hks'; cases hks'
      · have hmem := alookup_mem existing id e he
        apply Bool.eq_false_iff.mpr
        intro hall
        rw [List.all_eq_true] at hall
        have hone := hall (id, e) hmem
        simp only [hf] at hone
        rw [hsf] at hone
        cases hone
  · rw [if_neg hks]
    constructor
    · intro _
      exact Or.inl (Bool.eq_false_iff.mpr hks)
    · intro _
      rfl

/-- C3: on identical snapshots for all three providers `check_for_changes`
returns all-true; a provider's flag is false exactly when its id-set
differs or some shared id's scalar-field projection differs; each flag is
computed from its own provider's two collections only; and overwriting a
single simple-valued field of a record with a different simple value makes
the shallow comparison (hence that provider's flag) fail. -/
theorem check_for_changes_spec (eA lA eAc lAc eY lY : Accounts) :
    (wfAccounts eA → wfAccounts eAc → wfAccounts eY →
      check_for_changes eA eA eAc eAc eY eY = (true, true, true))
    ∧ ((akeys eA).Nodup →
        ((check_for_changes eA lA eAc lAc eY lY).1 = false ↔
          keySetEq eA lA = false ∨
          ∃ id e f, alookup eA id = some e ∧ alookup lA id = some f ∧
            shallow_compare_dicts e f = false))
    ∧ ((check_for_changes eA lA eAc lAc eY lY).2.1 = accountsMatchCheck eAc lAc
        ∧ (check_for_changes eA lA eAc lAc eY lY).2.2 = accountsMatchCheck eY lY
        ∧ (check_for_changes eA lA eAc lAc eY lY).1 = accountsMatchCheck eA lA)
    ∧ (∀ (e : Entry) (field : String) (v v' : JVal),
        (akeys e).Nodup → alookup e field = some v → is_simple_value v = true →
        is_simple_value v' = true → v ≠ v' →
        shallow_compare_dicts e (aset e field v') = false) := by
  refine ⟨?_, ?_, ⟨rfl, rfl, rfl⟩, ?_⟩
  · intro h1 h2 h3
    unfold check_for_changes
    rw [accountsMatchCheck_refl eA h1, accountsMatchCheck_refl eAc h2,
        accountsMatchCheck_refl eY h3]
  · intro hnd
    exact accountsMatchCheck_false_iff eA lA hnd
  · intro e field v v' hnd he hv hv' hne
    have hm : (field, v) ∈ e := alookup_mem e field v he
    have hmf : (field, v) ∈ e.filter (fun p => is_simple_value p.2) :=
      List.mem_filter.mpr ⟨hm, by simpa using hv⟩
    have hnd' : (akeys (aset e field v')).Nodup := akeys_aset_nodup e field v' hnd
    have h2 : alookup ((aset e field v').filter (fun p => is_simple_value p.2)) field
        = some v' := by
      rw [alookup_filter_nodup _ _ _ hnd', alookup_aset]
      simp [hv']
    apply Bool.eq_false_iff.mpr
    intro htrue
    unfold shallow_compare_dicts pyDictEq at htrue
    rw [Bool.and_eq_true, List.all_eq_true, List.all_eq_true] at htrue
    have hone := htrue.1 (field, v) hmf
    simp only at hone
    rw [h2, beq_iff_eq, Option.some.injEq] at hone
    exact hne hone.symm

/-- Witness for `check_for_changes_spec` on concrete snapshots: equal
snapshots give all-true, and changing the scalar `balance` field of a
record defeats the shallow comparison. -/
theorem check_for_changes_spec_witness :
    check_for_changes
        [("a", [("name", JVal.str "ac"), ("balance", JVal.int 4)])]
        [("a", [("name", JVal.str "ac"), ("balance", JVal.int 4)])]
        [("b", [("name", JVal.str "x")])] [("b", [("name", JVal.str "x")])]
        [] [] = (true, true, true)
    ∧ shallow_compare_dicts [("name", JVal.str "ac"), ("balance", JVal.int 4)]
        (aset [("name", JVal.str "ac"), ("balance", JVal.int 4)] "balance" (JVal.int 9))
        = false :=
  ⟨(check_for_changes_spec
      [("a", [("name", JVal.str "ac"), ("balance", JVal.int 4)])]
      [("a", [("name", JVal.str "ac"), ("balance", JVal.int 4)])]
      [("b", [("name", JVal.str "x")])] [("b", [("name", JVal.str "x")])]
      [] []).1 (by decide) (by decide) (by decide),
   (check_for_changes_spec [] [] [] [] [] []).2.2.2
      [("name", JVal.str "ac"), ("balance", JVal.int 4)] "balance"
      (JVal.int 4) (JVal.int 9) (by decide) (by decide) (by decide) (by decide)
      (by decide)⟩

mutual
theorem hasSeq_remove_seq : (v : JVal) → hasSeq (remove_seq v) = false
  | .obj o => by
      show hasSeqObj (removeSeqObj o) = false
      exact hasSeqObj_removeSeqObj o
  | .arr a => by
      show hasSeqArr (removeSeqArr a) = false
      exact hasSeqArr_removeSeqArr a
  | .null => rfl
  | .bool _ => rfl
  | .int _ => rfl
  | .str _ => rfl
theorem hasSeqArr_removeSeqArr : (a : JArr) → hasSeqArr (removeSeqArr a) = false
  | .nil => rfl
  | .cons hd tl => by
      show (hasSeq (remove_seq hd) || hasSeqArr (removeSeqArr tl)) = false
      rw [hasSeq_remove_seq hd, hasSeqArr_removeSeqArr tl]
      rfl
theorem hasSeqObj_removeSeqObj : (o : JObj) → hasSeqObj (removeSeqObj o) = false
  | .nil => rfl
  | .cons k v tl => by
      by_cases h : k = "seq"
      · show hasSeqObj (if k = "seq" then removeSeqObj tl else _) = false
        rw [if_pos h]
        exact hasSeqObj_removeSeqObj tl
      · show hasSeqObj (if k = "seq" then _ else .cons k (remove_seq v) (removeSeqObj tl)) = false
        rw [if_neg h]
        show (decide (k = "seq") || hasSeq (remove_seq v) || hasSeqObj (removeSeqObj tl)) = false
        rw [hasSeq_remove_seq v, hasSeqObj_removeSeqObj tl]
        simp [h]
end



theorem removeSeqObj_cons (k : String) (v : JVal) (tl : JObj) :
    removeSeqObj (.cons k v tl)
      = if k = "seq" then removeSeqObj tl else .cons k (remove_seq v) (removeSeqObj tl) := by
  simp only [removeSeqObj]

theorem jlookup_cons (k : String) (v : JVal) (tl : JObj) (key : String) :
    JObj.lookup (.cons k v tl) key = if k = key then some v else JObj.lookup tl key := by
  simp only [JObj.lookup]

theorem lookup_removeSeqObj_ne : (o : JObj) → ∀ (k : String), k ≠ "seq" →
    JObj.lookup (removeSeqObj o) k = (JObj.lookup o k).map remove_seq
  | .nil => by intro k hk; rfl
  | .cons k' v tl => by
      intro k hk
      rw [removeSeqObj_cons, jlookup_cons]
      by_cases h : k' = "seq"
      · rw [if_pos h]
        have hne : ¬ (k' = k) := by rw [h]; exact fun hc => hk hc.symm
        rw [if_neg hne]
        exact lookup_removeSeqObj_ne tl k hk
      · rw [if_neg h, jlookup_cons]
        by_cases h2 : k' = k
        · rw [if_pos h2, if_pos h2]; rfl
        · rw [if_neg h2, if_neg h2]
          exact lookup_removeSeqObj_ne tl k hk

theorem lookup_removeSeqObj_seq : (o : JObj) →
    JObj.lookup (removeSeqObj o) "seq" = none
  | .nil => rfl
  | .cons k v tl => by
      rw [removeSeqObj_cons]
      by_cases h : k = "seq"
      · rw [if_pos h]
        exact lookup_removeSeqObj_seq tl
      · rw [if_neg h, jlookup_cons, if_neg h]
        exact lookup_removeSeqObj_seq tl

/-- C5 counterexample: `save_mapping` itself does not strip `seq` — a
structure containing a nested `seq` key and all four required top-level
keys is written unchanged, `seq` included. -/
theorem save_mapping_keeps_seq_counterexample :
    save_mapping saveTestData = some saveTestData ∧ hasSeq saveTestData = true := by
  decide

/-- C5 (amended): the recursive `seq` stripping lives in `remove_seq`,
which the saving caller applies before `save_mapping` (which itself
writes the data unchanged after validating the four required keys).
`remove_seq` removes every `seq` key at any depth, preserves every other
key with its value recursively stripped, and therefore everything written
through the caller's pipeline is free of `seq` keys. -/
theorem remove_seq_strips_every_seq_key :
    (∀ v : JVal, hasSeq (remove_seq v) = false)
    ∧ (∀ (o : JObj) (k : String), k ≠ "seq" →
        JObj.lookup (removeSeqObj o) k = (JObj.lookup o k).map remove_seq)
    ∧ (∀ o : JObj, JObj.lookup (removeSeqObj o) "seq" = none)
    ∧ (∀ data w : JVal, save_pipeline data = some w →
        w = remove_seq data ∧ hasSeq w = false) := by
  refine ⟨hasSeq_remove_seq, lookup_removeSeqObj_ne, lookup_removeSeqObj_seq, ?_⟩
  intro data w h
  simp only [save_pipeline] at h
  have hw : w = remove_seq data := by
    cases hr : remove_seq data with
    | obj o =>
        rw [hr] at h
        simp only [save_mapping] at h
        split at h
        · cases h; rfl
        · cases h
    | arr a => rw [hr] at h; simp only [save_mapping] at h; cases h
    | null => rw [hr] at h; simp only [save_mapping] at h; cases h
    | bool b => rw [hr] at h; simp only [save_mapping] at h; cases h
    | int n => rw [hr] at h; simp only [save_mapping] at h; cases h
    | str s => rw [hr] at h; simp only [save_mapping] at h; cases h
  exact ⟨hw, hw ▸ hasSeq_remove_seq data⟩

/-- Witness for `remove_seq_strips_every_seq_key` at a concrete nested
structure. -/
theorem remove_seq_strips_every_seq_key_witness :
    JObj.lookup (removeSeqObj (.cons "seq" (.int 3) (.cons "name" (.str "n") .nil))) "name"
        = (JObj.lookup (.cons "seq" (.int 3) (.cons "name" (.str "n") .nil)) "name").map remove_seq
    ∧ (remove_seq saveTestData = remove_seq saveTestData
        ∧ hasSeq (remove_seq saveTestData) = false) :=
  ⟨remove_seq_strips_every_seq_key.2.1
      (.cons "seq" (.int 3) (.cons "name" (.str "n") .nil)) "name" (by decide),
   remove_seq_strips_every_seq_key.2.2.2 saveTestData (remove_seq saveTestData) (by decide)⟩

theorem alookup_updateAll_not_mem (fields : List (String × JVal)) (e : Entry) (k : String)
    (h : k ∉ fields.map (·.1)) :
    alookup (fields.foldl (fun e p => aset e p.1 p.2) e) k = alookup e k := by
  induction fields generalizing e with
  | nil => rfl
  | cons f fs ih =>
      rw [List.map_cons, List.mem_cons, not_or] at h
      rw [List.foldl_cons, ih (aset e f.1 f.2) h.2, alookup_aset, if_neg h.1]

theorem alookup_updateAll_head (rest : List (String × JVal)) (e : Entry)
    (k : String) (v : JVal) (h : k ∉ rest.map (·.1)) :
    alookup (((k, v) :: rest).foldl (fun e p => aset e p.1 p.2) e) k = some v := by
  rw [List.foldl_cons, alookup_updateAll_not_mem rest _ k h, alookup_aset, if_pos rfl]

theorem not_claimed_no_entry (m : Mapping) (key id : String)
    (h : id_is_claimed m key id = false) :
    ∀ k e, alookup m k = some e → alookup e key ≠ some (.str id) := by
  intro k e hk hc
  have hmem := alookup_mem m k e hk
  unfold id_is_claimed at h
  rw [List.any_eq_false] at h
  have := h (k, e) hmem
  rw [hc] at this
  simp at this

theorem uniqueTargetIds_aset_new (m : Mapping) (key k : String) (e' : Entry) (id : String)
    (hu : uniqueTargetIds m key) (hcl : id_is_claimed m key id = false)
    (he' : alookup e' key = some (.str id)) :
    uniqueTargetIds (aset m k e') key := by
  intro k1 k2 e1 e2 v h1 h2 hne hv1 hv2
  rw [alookup_aset] at h1 h2
  by_cases hk1 : k1 = k
  · rw [if_pos hk1] at h1
    injection h1 with h1
    subst h1
    have hid : v = id := by
      rw [he'] at hv1
      injection hv1 with h
      exact (JVal.str.injEq _ _ ▸ h).symm
    have hk2 : ¬ (k2 = k) := by
      intro hc; exact hne (hk1.trans hc.symm)
    rw [if_neg hk2] at h2
    exact not_claimed_no_entry m key id hcl k2 e2 h2 (hid ▸ hv2)
  · rw [if_neg hk1] at h1
    by_cases hk2 : k2 = k
    · rw [if_pos hk2] at h2
      injection h2 with h2
      subst h2
      have hid : v = id := by
        rw [he'] at hv2
        injection hv2 with h
        exact (JVal.str.injEq _ _ ▸ h).symm
      exact not_claimed_no_entry m key id hcl k1 e1 h1 (hid ▸ hv1)
    · rw [if_neg hk2] at h2
      exact hu k1 k2 e1 e2 v h1 h2 hne hv1 hv2

theorem uniqueTargetIds_aset_same (m : Mapping) (key k : String) (e' : Entry)
    (hu : uniqueTargetIds m key)
    (hsame : alookup e' key = alookup ((alookup m k).getD []) key) :
    uniqueTargetIds (aset m k e') key := by
  intro k1 k2 e1 e2 v h1 h2 hne hv1 hv2
  rw [alookup_aset] at h1 h2
  by_cases hk1 : k1 = k
  · rw [if_pos hk1] at h1
    injection h1 with h1
    subst h1
    rw [hsame] at hv1
    cases hmk : alookup m k with
    | none => rw [hmk] at hv1; simp [alookup] at hv1
    | some eold =>
        rw [hmk] at hv1
        simp only [Option.getD_some] at hv1
        have hk2 : ¬ (k2 = k) := by
          intro hc; exact hne (hk1.trans hc.symm)
        rw [if_neg hk2] at h2
        exact hu k k2 eold e2 v hmk h2 (fun hc => hk2 hc.symm) hv1 hv2
  · rw [if_neg hk1] at h1
    by_cases hk2 : k2 = k
    · rw [if_pos hk2] at h2
      injection h2 with h2
      subst h2
      rw [hsame] at hv2
      cases hmk : alookup m k with
      | none => rw [hmk] at hv2; simp [alookup] at hv2
      | some eold =>
          rw [hmk] at hv2
          simp only [Option.getD_some] at hv2
          exact hu k1 k e1 eold v h1 hmk hk1 hv1 hv2
    · rw [if_neg hk2] at h2
      exact hu k1 k2 e1 e2 v h1 h2 hne hv1 hv2

theorem validate_user_input_rejects_claimed (resp : String)
    (targets : List TargetAccount) (m : Mapping) (key : String) (n : Int)
    (t : TargetAccount) (hp : pyParseInt resp = some n) (hn : n ≠ 0)
    (hf : targets.find? (fun a => a.seq == n) = some t)
    (hc : id_is_claimed m key t.id = true) :
    validate_user_input resp targets m key = none := by
  unfold validate_user_input
  rw [hp]
  show (if n = 0 then some 0
    else match targets.find? (fun account => account.seq == n) with
      | some account => if id_is_claimed m key account.id = true then none else some n
      | none => none) = none
  rw [if_neg hn, hf]
  show (if id_is_claimed m key t.id = true then none else some n) = none
  rw [if_pos hc]

theorem validate_user_input_some_spec (resp : String)
    (targets : List TargetAccount) (m : Mapping) (key : String) (n : Int)
    (h : validate_user_input resp targets m key = some n) (hn : n ≠ 0) :
    pyParseInt resp = some n ∧
    ∃ t, targets.find? (fun a => a.seq == n) = some t ∧
      id_is_claimed m key t.id = false := by
  unfold validate_user_input at h
  cases hp : pyParseInt resp with
  | none => rw [hp] at h; cases h
  | some ns =>
      rw [hp] at h
      replace h : (if ns = 0 then some 0
        else match targets.find? (fun account => account.seq == ns) with
          | some account => if id_is_claimed m key account.id = true then none else some ns
          | none => none) = some n := h
      by_cases h0 : ns = 0
      · rw [if_pos h0] at h
        injection h with h
        exact absurd h.symm hn
      · rw [if_neg h0] at h
        cases hf : targets.find? (fun a => a.seq == ns) with
        | none => rw [hf] at h; cases h
        | some t =>
            rw [hf] at h
            replace h : (if id_is_claimed m key t.id = true then none else some ns)
                = some n := h
            by_cases hc : id_is_claimed m key t.id = true
            · rw [if_pos hc] at h; cases h
            · rw [if_neg hc] at h
              injection h with h
              have hf' : targets.find? (fun a => a.seq == n) = some t := by
                rw [← h]; exact hf
              exact ⟨congrArg some h, t, hf', Bool.eq_false_iff.mpr hc⟩

theorem matchLoop_preserves_unique (accts : List (String × AkahuAccount)) :
    ∀ (m : Mapping) (targets_list : List TargetAccount)
      (atype key name : String) (inputs : Nat → String) (i : Nat)
      (asid ybid : Option String) (now : String),
    key ∉ [atype ++ "_do_not_map", "akahu_id", "akahu_name", atype ++ "_matched_date"] →
    key ∉ [name, "akahu_id", "akahu_name", atype ++ "_matched_date",
           "actual_budget_id", "ynab_budget_id"] →
    uniqueTargetIds m key →
    uniqueTargetIds
      (matchLoop m accts targets_list atype key name inputs i asid ybid now) key := by
  induction accts with
  | nil => intro m _ _ _ _ _ _ _ _ _ _ _ hu; exact hu
  | cons hd rest ih =>
      intro m targets atype key name inputs i asid ybid now hk1 hk2 hu
      obtain ⟨akid, ak⟩ := hd
      rw [matchLoop]
      split
      · exact ih m targets atype key name inputs i asid ybid now hk1 hk2 hu
      · split
        · exact ih m targets atype key name inputs (i + 1) asid ybid now hk1 hk2 hu
        · rename_i n hv
          split
          · apply ih _ targets atype key name inputs (i + 1) asid ybid now hk1 hk2
            apply uniqueTargetIds_aset_same m key akid _ hu
            exact alookup_updateAll_not_mem _ _ key hk1
          · rename_i h0
            rcases validate_user_input_some_spec _ targets m key n hv h0
              with ⟨hp, t, hf, hcl⟩
            split
            · rename_i selected hsel
              have hst : selected = t := by
                have hsel' : targets.find? (fun a => a.seq == n) = some selected := hsel
                rw [hf] at hsel'
                injection hsel' with hsel'
                exact hsel'.symm
              subst hst
              apply ih _ targets atype key name inputs (i + 1) asid ybid now hk1 hk2
              apply uniqueTargetIds_aset_new m key akid _ selected.id hu hcl
              exact alookup_updateAll_head _ _ key (.str selected.id) hk2
            · exact ih m targets atype key name inputs (i + 1) asid ybid now hk1 hk2 hu

theorem uniqueTargetIds_nil (key : String) : uniqueTargetIds [] key := by
  intro k1 k2 e1 e2 v h1 _ _ _ _
  simp [alookup] at h1

/-- C4: `validate_user_input` rejects (returns `None` for) any input whose
seq resolves to a target whose id some mapping entry already claims under
the provider key; a non-zero acceptance implies the input parsed as an
integer, matched an existing target seq, and that target's id was
unclaimed; consequently `match_accounts` (for a valid provider type)
preserves the invariant that no two mapping entries carry the same
`{provider}_account_id` value. -/
theorem claim_exclusivity_spec :
    (∀ (resp : String) (targets : List TargetAccount) (m : Mapping) (key : String)
        (n : Int) (t : TargetAccount),
        pyParseInt resp = some n → n ≠ 0 →
        targets.find? (fun a => a.seq == n) = some t →
        id_is_claimed m key t.id = true →
        validate_user_input resp targets m key = none)
    ∧ (∀ (resp : String) (targets : List TargetAccount) (m : Mapping) (key : String)
        (n : Int), validate_user_input resp targets m key = some n → n ≠ 0 →
        pyParseInt resp = some n ∧
        ∃ t, targets.find? (fun a => a.seq == n) = some t ∧
          id_is_claimed m key t.id = false)
    ∧ (∀ (m : Mapping) (akahu : List (String × AkahuAccount))
        (targets : List TargetAccount) (atype : String) (inputs : Nat → String)
        (asid ybid : Option String) (now : String) (key name : String) (m' : Mapping),
        target_keys atype = some (key, name) →
        match_accounts m akahu targets atype inputs asid ybid now = .ok m' →
        uniqueTargetIds m key → uniqueTargetIds m' key) := by
  refine ⟨validate_user_input_rejects_claimed, validate_user_input_some_spec, ?_⟩
  intro m akahu targets atype inputs asid ybid now key name m' htk hma hu
  unfold target_keys at htk
  by_cases ha : atype = "actual"
  · rw [if_pos ha] at htk
    injection htk with htk
    rw [Prod.mk.injEq] at htk
    obtain ⟨hk, hn⟩ := htk
    subst hk
    subst hn
    subst ha
    unfold match_accounts at hma
    rw [show target_keys "actual" = some ("actual_account_id", "actual_account_name")
      from by decide] at hma
    injection hma with hma
    subst hma
    exact matchLoop_preserves_unique _ m (assignSeqs targets) "actual"
      "actual_account_id" "actual_account_name" inputs 0 asid ybid now
      (by decide) (by decide) hu
  · rw [if_neg ha] at htk
    by_cases hy : atype = "ynab"
    · rw [if_pos hy] at htk
      injection htk with htk
      rw [Prod.mk.injEq] at htk
      obtain ⟨hk, hn⟩ := htk
      subst hk
      subst hn
      subst hy
      unfold match_accounts at hma
      rw [show target_keys "ynab" = some ("ynab_account_id", "ynab_account_name")
        from by decide] at hma
      injection hma with hma
      subst hma
      exact matchLoop_preserves_unique _ m (assignSeqs targets) "ynab"
        "ynab_account_id" "ynab_account_name" inputs 0 asid ybid now
        (by decide) (by decide) hu
    · rw [if_neg hy] at htk
      cases htk

/-- Witness for `claim_exclusivity_spec`: entering the seq of the already
claimed target `x2` is rejected, and a concrete `matchLoop` run starting
from a mapping satisfying the invariant still satisfies it. -/
theorem claim_exclusivity_spec_witness :
    validate_user_input "2" [⟨"x1", "A", 1⟩, ⟨"x2", "B", 2⟩]
        [("ak1", [("ynab_account_id", JVal.str "x2")])] "ynab_account_id" = none
    ∧ uniqueTargetIds (matchLoop [] [("ak2", ⟨"Check", "Bank"⟩)]
        (assignSeqs [⟨"t9", "Check", 0⟩]) "actual" "actual_account_id"
        "actual_account_name" (fun _ => "1") 0 none none "now") "actual_account_id" :=
  ⟨claim_exclusivity_spec.1 "2" [⟨"x1", "A", 1⟩, ⟨"x2", "B", 2⟩]
      [("ak1", [("ynab_account_id", JVal.str "x2")])] "ynab_account_id" 2 ⟨"x2", "B", 2⟩
      (by decide) (by decide) (by decide) (by decide),
   claim_exclusivity_spec.2.2 [] [("ak2", ⟨"Check", "Bank"⟩)] [⟨"t9", "Check", 0⟩]
      "actual" (fun _ => "1") none none "now" "actual_account_id" "actual_account_name"
      (matchLoop [] [("ak2", ⟨"Check", "Bank"⟩)] (assignSeqs [⟨"t9", "Check", 0⟩])
        "actual" "actual_account_id" "actual_account_name" (fun _ => "1") 0 none none "now")
      (by decide) rfl (uniqueTargetIds_nil "actual_account_id")⟩

theorem extractOneAux_spec (score : String → String → Nat) (q : String) :
    ∀ (l : List String) (best : String × Nat),
    ((extractOneAux score q best l) = best ∨ (extractOneAux score q best l).1 ∈ l)
    ∧ best.2 ≤ (extractOneAux score q best l).2
    ∧ (∀ n ∈ l, score q n ≤ (extractOneAux score q best l).2)
    ∧ (best.2 = score q best.1 →
        (extractOneAux score q best l).2 = score q (extractOneAux score q best l).1) := by
  intro l
  induction l with
  | nil =>
      intro best
      refine ⟨Or.inl rfl, le_refl _, ?_, fun h => h⟩
      intro n hn
      simp at hn
  | cons n tl ih =>
      intro best
      rw [extractOneAux]
      obtain ⟨ih1, ih2, ih3, ih4⟩ :=
        ih (if score q n > best.2 then (n, score q n) else best)
      by_cases hgt : score q n > best.2
      · rw [if_pos hgt] at ih1 ih2 ih3 ih4
        rw [if_pos hgt]
        refine ⟨?_, ?_, ?_, ?_⟩
        · rcases ih1 with h | h
          · right
            rw [h]
            exact List.mem_cons_self n tl
          · exact Or.inr (List.mem_cons_of_mem n h)
        · exact le_trans (le_of_lt hgt) ih2
        · intro x hx
          rcases List.mem_cons.mp hx with rfl | hx'
          · exact ih2
          · exact ih3 x hx'
        · intro _; exact ih4 rfl
      · rw [if_neg hgt] at ih1 ih2 ih3 ih4
        rw [if_neg hgt]
        refine ⟨?_, ih2, ?_, ih4⟩
        · rcases ih1 with h | h
          · exact Or.inl h
          · exact Or.inr (List.mem_cons_of_mem n h)
        · intro x hx
          rcases List.mem_cons.mp hx with rfl | hx'
          · exact le_trans (Nat.le_of_not_lt hgt) ih2
          · exact ih3 x hx'

theorem extractOne_some_spec (score : String → String → Nat) (q : String)
    (names : List String) (bn : String) (bs : Nat)
    (h : extractOne score q names = some (bn, bs)) :
    bn ∈ names ∧ bs = score q bn ∧ ∀ n ∈ names, score q n ≤ bs := by
  cases names with
  | nil => cases h
  | cons n0 tl =>
      rw [extractOne] at h
      injection h with h
      obtain ⟨h1, h2, h3, h4⟩ := extractOneAux_spec score q tl (n0, score q n0)
      rw [h] at h1 h2 h3 h4
      refine ⟨?_, ?_, ?_⟩
      · rcases h1 with hh | hh
        · rw [show bn = (bn, bs).1 from rfl, hh]
          exact List.mem_cons_self n0 tl
        · exact List.mem_cons_of_mem n0 hh
      · exact h4 rfl
      · intro x hx
        rcases List.mem_cons.mp hx with rfl | hx'
        · exact h2
        · exact h3 x hx'

theorem firstSeqWithName_mem : ∀ (l : List (String × Int)) (b : String),
    b ∈ l.map (·.1) → ∃ p ∈ l, p.1 = b ∧ firstSeqWithName l b = p.2 := by
  intro l
  induction l with
  | nil => intro b hb; simp at hb
  | cons p tl ih =>
      intro b hb
      rw [firstSeqWithName]
      by_cases hp : p.1 = b
      · exact ⟨p, List.mem_cons_self p tl, hp, by rw [if_pos hp]⟩
      · rw [List.map_cons, List.mem_cons] at hb
        rcases hb with rfl | hb'
        · exact absurd rfl hp
        · rcases ih b hb' with ⟨p', hp', hb2, hres⟩
          exact ⟨p', List.mem_cons_of_mem p hp', hb2, by rw [if_neg hp]; exact hres⟩

theorem get_fuzzy_accepts (ak : AkahuAccount) (targets : List TargetAccount)
    (m : Mapping) (key : String) (score : String → String → Nat)
    (bn : String) (bs : Nat)
    (hx : extractOne score ak.name ((unmapped_pairs targets m key).map (·.1))
      = some (bn, bs))
    (hc : bs ≥ 50) :
    ∃ t ∈ targets, id_is_claimed m key t.id = false
        ∧ get_fuzzy_match_suggestion ak targets m key score = t.seq
        ∧ 50 ≤ score ak.name t.name
        ∧ ∀ t2 ∈ targets, id_is_claimed m key t2.id = false →
            score ak.name t2.name ≤ score ak.name t.name := by
  obtain ⟨hmem, hsc, hmax⟩ := extractOne_some_spec score ak.name _ bn bs hx
  obtain ⟨p, hp, hpb, hres⟩ := firstSeqWithName_mem _ bn hmem
  obtain ⟨t, ht, hteq⟩ := List.mem_map.mp hp
  obtain ⟨htt, htc⟩ := List.mem_filter.mp ht
  have htb : t.name = bn := by
    rw [← hpb, ← hteq]
  have htclaim : id_is_claimed m key t.id = false := by
    simpa using htc
  refine ⟨t, htt, htclaim, ?_, ?_, ?_⟩
  · unfold get_fuzzy_match_suggestion
    rw [hx]
    show (if bs ≥ 50 then firstSeqWithName (unmapped_pairs targets m key) bn
        else 0) = t.seq
    rw [if_pos hc, hres, ← hteq]
  · rw [htb, ← hsc]
    exact hc
  · intro t2 ht2 hc2
    have ht2m : t2.name ∈ (unmapped_pairs targets m key).map (·.1) := by
      unfold unmapped_pairs
      rw [List.map_map]
      exact List.mem_map.mpr ⟨t2, List.mem_filter.mpr ⟨ht2, by simp [hc2]⟩, rfl⟩
    have := hmax t2.name ht2m
    rw [htb, ← hsc]
    exact this

/-- C6: any exception from the primary (OpenAI) strategy, or any reply
that does not validate, makes `get_openai_match_suggestion` return the
fuzzy fallback's answer; the fallback is a total function that returns 0
on an empty unclaimed list, returns either 0 or a floor-clearing
best-scoring unclaimed seq in general, and — the acceptance direction —
whenever some unclaimed target's score reaches the 50 floor it does
return the seq of a best-scoring unclaimed target (never 0-by-default). -/
theorem suggestion_fallback_spec (ak : AkahuAccount) (targets : List TargetAccount)
    (m : Mapping) (key : String) (score : String → String → Nat) :
    (∀ err : String, get_openai_match_suggestion ak targets m key score (.error err)
        = get_fuzzy_match_suggestion ak targets m key score)
    ∧ (∀ reply : String,
        validate_user_input (pyStrip reply) targets m key = none →
        get_openai_match_suggestion ak targets m key score (.ok reply)
          = get_fuzzy_match_suggestion ak targets m key score)
    ∧ (unmapped_pairs targets m key = [] →
        get_fuzzy_match_suggestion ak targets m key score = 0)
    ∧ (get_fuzzy_match_suggestion ak targets m key score = 0
        ∨ ∃ t ∈ targets, id_is_claimed m key t.id = false
            ∧ get_fuzzy_match_suggestion ak targets m key score = t.seq
            ∧ 50 ≤ score ak.name t.name
            ∧ ∀ t2 ∈ targets, id_is_claimed m key t2.id = false →
                score ak.name t2.name ≤ score ak.name t.name)
    ∧ (∀ t0 ∈ targets, id_is_claimed m key t0.id = false →
        50 ≤ score ak.name t0.name →
        ∃ t ∈ targets, id_is_claimed m key t.id = false
            ∧ get_fuzzy_match_suggestion ak targets m key score = t.seq
            ∧ 50 ≤ score ak.name t.name
            ∧ ∀ t2 ∈ targets, id_is_claimed m key t2.id = false →
                score ak.name t2.name ≤ score ak.name t.name) := by
  refine ⟨fun _ => rfl, ?_, ?_, ?_, ?_⟩
  · intro reply h
    unfold get_openai_match_suggestion
    show (match validate_user_input (pyStrip reply) targets m key with
      | some chosen_index => chosen_index
      | none => get_fuzzy_match_suggestion ak targets m key score)
        = get_fuzzy_match_suggestion ak targets m key score
    rw [h]
  · intro h
    unfold get_fuzzy_match_suggestion
    rw [h]
    rfl
  · cases hx : extractOne score ak.name ((unmapped_pairs targets m key).map (·.1)) with
    | none =>
        left
        unfold get_fuzzy_match_suggestion
        rw [hx]
    | some pr =>
        obtain ⟨bn, bs⟩ := pr
        by_cases hc : bs ≥ 50
        · exact Or.inr (get_fuzzy_accepts ak targets m key score bn bs hx hc)
        · left
          unfold get_fuzzy_match_suggestion
          rw [hx]
          show (if bs ≥ 50 then firstSeqWithName (unmapped_pairs targets m key) bn
            else 0) = 0
          rw [if_neg hc]
  · intro t0 ht0 hcl0 hfloor
    have hmem0 : t0.name ∈ (unmapped_pairs targets m key).map (·.1) := by
      unfold unmapped_pairs
      rw [List.map_map]
      exact List.mem_map.mpr ⟨t0, List.mem_filter.mpr ⟨ht0, by simp [hcl0]⟩, rfl⟩
    cases hx : extractOne score ak.name ((unmapped_pairs targets m key).map (·.1)) with
    | none =>
        exfalso
        cases hnames : (unmapped_pairs targets m key).map (·.1) with
        | nil =>
            rw [hnames] at hmem0
            simp at hmem0
        | cons a tl =>
            rw [hnames] at hx
            simp [extractOne] at hx
    | some pr =>
        obtain ⟨bn, bs⟩ := pr
        have hspec := extractOne_some_spec score ak.name _ bn bs hx
        have hle : score ak.name t0.name ≤ bs := hspec.2.2 t0.name hmem0
        exact get_fuzzy_accepts ak targets m key score bn bs hx (le_trans hfloor hle)

/-- Witness for `suggestion_fallback_spec`: an invalid primary reply falls
back to fuzzy, an empty target list yields the no-match answer 0, and an
unclaimed target clearing the 50 floor is actually returned — concretely,
the fallback answers seq 1, not 0. -/
theorem suggestion_fallback_spec_witness :
    get_openai_match_suggestion ⟨"Checking", "Bank"⟩ [⟨"t1", "Checking", 1⟩] []
        "actual_account_id" (fun a b => if a = b then 90 else 10) (.ok "junk")
      = get_fuzzy_match_suggestion ⟨"Checking", "Bank"⟩ [⟨"t1", "Checking", 1⟩] []
        "actual_account_id" (fun a b => if a = b then 90 else 10)
    ∧ get_fuzzy_match_suggestion ⟨"Checking", "Bank"⟩ [] [] "actual_account_id"
        (fun a b => if a = b then 90 else 10) = 0
    ∧ (∃ t ∈ ([⟨"t1", "Checking", 1⟩] : List TargetAccount),
        id_is_claimed [] "actual_account_id" t.id = false
        ∧ get_fuzzy_match_suggestion ⟨"Checking", "Bank"⟩ [⟨"t1", "Checking", 1⟩] []
            "actual_account_id" (fun a b => if a = b then 90 else 10) = t.seq
        ∧ 50 ≤ (fun a b => if a = b then 90 else 10)
            (AkahuAccount.mk "Checking" "Bank").name t.name
        ∧ ∀ t2 ∈ ([⟨"t1", "Checking", 1⟩] : List TargetAccount),
            id_is_claimed [] "actual_account_id" t2.id = false →
            (fun a b => if a = b then 90 else 10)
                (AkahuAccount.mk "Checking" "Bank").name t2.name
              ≤ (fun a b => if a = b then 90 else 10)
                (AkahuAccount.mk "Checking" "Bank").name t.name)
    ∧ get_fuzzy_match_suggestion ⟨"Checking", "Bank"⟩ [⟨"t1", "Checking", 1⟩] []
        "actual_account_id" (fun a b => if a = b then 90 else 10) = 1 :=
  ⟨(suggestion_fallback_spec ⟨"Checking", "Bank"⟩ [⟨"t1", "Checking", 1⟩] []
      "actual_account_id" (fun a b => if a = b then 90 else 10)).2.1 "junk" (by decide),
   (suggestion_fallback_spec ⟨"Checking", "Bank"⟩ [] [] "actual_account_id"
      (fun a b => if a = b then 90 else 10)).2.2.1 (by decide),
   (suggestion_fallback_spec ⟨"Checking", "Bank"⟩ [⟨"t1", "Checking", 1⟩] []
      "actual_account_id" (fun a b => if a = b then 90 else 10)).2.2.2.2
      ⟨"t1", "Checking", 1⟩ (by decide) (by decide) (by decide),
   by decide⟩

theorem alookup_updateAll_append (fs1 fs2 : List (String × JVal)) (k : String)
    (v : JVal) (e : Entry) (h : k ∉ fs2.map (·.1)) :
    alookup ((fs1 ++ (k, v) :: fs2).foldl (fun e p => aset e p.1 p.2) e) k = some v := by
  rw [List.foldl_append, List.foldl_cons, alookup_updateAll_not_mem fs2 _ k h,
      alookup_aset, if_pos rfl]

/-- C10: the entry written by the confirmed-match branch of
`match_accounts` always carries both `actual_budget_id` and
`ynab_budget_id`: the matched provider's field gets the ambient budget id
from the environment, the other provider's field gets `None`, overwriting
whatever was stored there before; and a one-account `match_accounts` run
whose input is accepted produces exactly this entry. -/
theorem match_accounts_confirm_writes_both_budget_ids
    (m : Mapping) (akahu_id akahu_name : String) (sel : TargetAccount)
    (asid ybid : Option String) (now : String) :
    (∃ e', alookup (setdefaultUpdate m akahu_id (confirm_update_fields
          "actual_account_id" "actual_account_name" sel akahu_id akahu_name
          "actual" asid ybid now)) akahu_id = some e'
        ∧ alookup e' "actual_budget_id" = some (envJ asid)
        ∧ alookup e' "ynab_budget_id" = some JVal.null
        ∧ alookup e' "actual_account_id" = some (.str sel.id))
    ∧ (∃ e', alookup (setdefaultUpdate m akahu_id (confirm_update_fields
          "ynab_account_id" "ynab_account_name" sel akahu_id akahu_name
          "ynab" asid ybid now)) akahu_id = some e'
        ∧ alookup e' "ynab_budget_id" = some (envJ ybid)
        ∧ alookup e' "actual_budget_id" = some JVal.null
        ∧ alookup e' "ynab_account_id" = some (.str sel.id))
    ∧ (∀ (inputs : Nat → String) (targets : List TargetAccount) (ak : AkahuAccount)
        (n : Int) (t : TargetAccount) (m' : Mapping),
        (match alookup m akahu_id with
          | some e => ahasKey e "actual_account_id" || ahasKey e "actual_do_not_map"
          | none => false) = false →
        validate_user_input (inputs 0) (assignSeqs targets) m "actual_account_id"
          = some n →
        n ≠ 0 →
        seq_to_acct n (assignSeqs targets) = some t →
        match_accounts m [(akahu_id, ak)] targets "actual" inputs asid ybid now
          = .ok m' →
        m' = setdefaultUpdate m akahu_id (confirm_update_fields "actual_account_id"
          "actual_account_name" t akahu_id ak.name "actual" asid ybid now)) := by
  refine ⟨?_, ?_, ?_⟩
  · refine ⟨(confirm_update_fields "actual_account_id" "actual_account_name" sel
        akahu_id akahu_name "actual" asid ybid now).foldl (fun e p => aset e p.1 p.2)
        ((alookup m akahu_id).getD []), ?_, ?_, ?_, ?_⟩
    · unfold setdefaultUpdate
      rw [alookup_aset, if_pos rfl]
    · rw [show confirm_update_fields "actual_account_id" "actual_account_name" sel
          akahu_id akahu_name "actual" asid ybid now
        = [("actual_account_id", .str sel.id), ("actual_account_name", .str sel.name),
           ("akahu_id", .str akahu_id), ("akahu_name", .str akahu_name),
           ("actual" ++ "_matched_date", .str now)]
          ++ ("actual_budget_id", envJ asid) :: [("ynab_budget_id", JVal.null)] from rfl]
      exact alookup_updateAll_append _ _ _ _ _
        (show "actual_budget_id" ∉ (["ynab_budget_id"] : List String) from by decide)
    · rw [show confirm_update_fields "actual_account_id" "actual_account_name" sel
          akahu_id akahu_name "actual" asid ybid now
        = [("actual_account_id", .str sel.id), ("actual_account_name", .str sel.name),
           ("akahu_id", .str akahu_id), ("akahu_name", .str akahu_name),
           ("actual" ++ "_matched_date", .str now), ("actual_budget_id", envJ asid)]
          ++ ("ynab_budget_id", JVal.null) :: [] from rfl]
      exact alookup_updateAll_append _ _ _ _ _
        (show "ynab_budget_id" ∉ ([] : List String) from by decide)
    · rw [show confirm_update_fields "actual_account_id" "actual_account_name" sel
          akahu_id akahu_name "actual" asid ybid now
        = [] ++ ("actual_account_id", JVal.str sel.id)
          :: [("actual_account_name", .str sel.name), ("akahu_id", .str akahu_id),
              ("akahu_name", .str akahu_name), ("actual" ++ "_matched_date", .str now),
              ("actual_budget_id", envJ asid), ("ynab_budget_id", JVal.null)] from rfl]
      exact alookup_updateAll_append _ _ _ _ _
        (show "actual_account_id" ∉ (["actual_account_name", "akahu_id", "akahu_name",
          "actual" ++ "_matched_date", "actual_budget_id", "ynab_budget_id"] : List String)
          from by decide)
  · refine ⟨(confirm_update_fields "ynab_account_id" "ynab_account_name" sel
        akahu_id akahu_name "ynab" asid ybid now).foldl (fun e p => aset e p.1 p.2)
        ((alookup m akahu_id).getD []), ?_, ?_, ?_, ?_⟩
    · unfold setdefaultUpdate
      rw [alookup_aset, if_pos rfl]
    · rw [show confirm_update_fields "ynab_account_id" "ynab_account_name" sel
          akahu_id akahu_name "ynab" asid ybid now
        = [("ynab_account_id", .str sel.id), ("ynab_account_name", .str sel.name),
           ("akahu_id", .str akahu_id), ("akahu_name", .str akahu_name),
           ("ynab" ++ "_matched_date", .str now), ("actual_budget_id", JVal.null)]
          ++ ("ynab_budget_id", envJ ybid) :: [] from rfl]
      exact alookup_updateAll_append _ _ _ _ _
        (show "ynab_budget_id" ∉ ([] : List String) from by decide)
    · rw [show confirm_update_fields "ynab_account_id" "ynab_account_name" sel
          akahu_id akahu_name "ynab" asid ybid now
        = [("ynab_account_id", .str sel.id), ("ynab_account_name", .str sel.name),
           ("akahu_id", .str akahu_id), ("akahu_name", .str akahu_name),
           ("ynab" ++ "_matched_date", .str now)]
          ++ ("actual_budget_id", JVal.null) :: [("ynab_budget_id", envJ ybid)] from rfl]
      exact alookup_updateAll_append _ _ _ _ _
        (show "actual_budget_id" ∉ (["ynab_budget_id"] : List String) from by decide)
    · rw [show confirm_update_fields "ynab_account_id" "ynab_account_name" sel
          akahu_id akahu_name "ynab" asid ybid now
        = [] ++ ("ynab_account_id", JVal.str sel.id)
          :: [("ynab_account_name", .str sel.name), ("akahu_id", .str akahu_id),
              ("akahu_name", .str akahu_name), ("ynab" ++ "_matched_date", .str now),
              ("actual_budget_id", JVal.null), ("ynab_budget_id", envJ ybid)] from rfl]
      exact alookup_updateAll_append _ _ _ _ _
        (show "ynab_account_id" ∉ (["ynab_account_name", "akahu_id", "akahu_name",
          "ynab" ++ "_matched_date", "actual_budget_id", "ynab_budget_id"] : List String)
          from by decide)
  · intro inputs targets ak n t m' hskip hv hn hsel hma
    have heval : match_accounts m [(akahu_id, ak)] targets "actual" inputs asid ybid now
        = .ok (setdefaultUpdate m akahu_id (confirm_update_fields "actual_account_id"
            "actual_account_name" t akahu_id ak.name "actual" asid ybid now)) := by
      unfold match_accounts
      rw [show target_keys "actual"
        = some ("actual_account_id", "actual_account_name") from by decide]
      show Except.ok (matchLoop m [(akahu_id, ak)] (assignSeqs targets) "actual"
          "actual_account_id" "actual_account_name" inputs 0 asid ybid now) = _
      rw [matchLoop, show ("actual" ++ "_do_not_map") = "actual_do_not_map" from by decide,
          if_neg (Bool.eq_false_iff.mp hskip), hv]
      show Except.ok (if n = 0 then
          matchLoop (setdefaultUpdate m akahu_id
            (do_not_map_fields "actual" akahu_id ak.name now)) [] (assignSeqs targets)
            "actual" "actual_account_id" "actual_account_name" inputs (0 + 1)
            asid ybid now
        else
          match seq_to_acct n (assignSeqs targets) with
          | some selected_account =>
              matchLoop (setdefaultUpdate m akahu_id
                (confirm_update_fields "actual_account_id" "actual_account_name"
                  selected_account akahu_id ak.name "actual" asid ybid now))
                [] (assignSeqs targets) "actual" "actual_account_id"
                "actual_account_name" inputs (0 + 1) asid ybid now
          | none =>
              matchLoop m [] (assignSeqs targets) "actual" "actual_account_id"
                "actual_account_name" inputs (0 + 1) asid ybid now) = _
      rw [if_neg hn, hsel]
      rfl
    rw [heval] at hma
    injection hma with hma
    exact hma.symm

/-- Witness for `match_accounts_confirm_writes_both_budget_ids`: a
one-account run whose input selects seq 1 produces the entry with both
budget ids written (`ynab_budget_id` set to null). -/
theorem match_accounts_confirm_writes_both_budget_ids_witness :
    [("ak1", [("actual_account_id", JVal.str "t9"),
       ("actual_account_name", JVal.str "Check"),
       ("akahu_id", JVal.str "ak1"), ("akahu_name", JVal.str "Check"),
       ("actual_matched_date", JVal.str "now"),
       ("actual_budget_id", JVal.str "sync-1"),
       ("ynab_budget_id", JVal.null)])]
      = setdefaultUpdate [] "ak1" (confirm_update_fields "actual_account_id"
          "actual_account_name" ⟨"t9", "Check", 1⟩ "ak1" "Check" "actual"
          (some "sync-1") (some "bud-2") "now") :=
  (match_accounts_confirm_writes_both_budget_ids [] "ak1" "Check" ⟨"t9", "Check", 1⟩
      (some "sync-1") (some "bud-2") "now").2.2 (fun _ => "1") [⟨"t9", "Check", 0⟩]
    ⟨"Check", "Bank"⟩ 1 ⟨"t9", "Check", 1⟩
    [("ak1", [("actual_account_id", JVal.str "t9"),
       ("actual_account_name", JVal.str "Check"),
       ("akahu_id", JVal.str "ak1"), ("akahu_name", JVal.str "Check"),
       ("actual_matched_date", JVal.str "now"),
       ("actual_budget_id", JVal.str "sync-1"),
       ("ynab_budget_id", JVal.null)])]
    (by decide) (by decide) (by decide) (by decide) rfl

/-- C2 (code bug): the exact scenario of the claim — `akahu-1` mapped to
YNAB account `ynab-9`, `ynab-9` gone from the latest YNAB fetch,
confirmation `"Y"` — makes `merge_and_update_mapping` raise `NameError`
(unbound `aid` in the YNAB deletion pair comprehension) instead of
removing the YNAB field group from the entry. -/
theorem merge_and_update_mapping_ynab_deletion_raises :
    merge_and_update_mapping
      [("akahu-1", [("akahu_id", JVal.str "akahu-1"),
        ("ynab_account_id", JVal.str "ynab-9"), ("ynab_budget_id", JVal.str "b1"),
        ("ynab_account_name", JVal.str "Nine"),
        ("ynab_matched_date", JVal.str "2024-01-01"),
        ("actual_account_id", JVal.str "act-7")])]
      [("akahu-1", [("name", JVal.str "A")])]
      [("act-7", [("name", JVal.str "Act")])]
      []
      [("akahu-1", [("name", JVal.str "A")])]
      [("act-7", [("name", JVal.str "Act")])]
      [("ynab-9", [("name", JVal.str "Nine")])]
      "Y" "now" = .error .nameError := rfl

/-- C7: with pending deletion candidates and any non-affirmative
confirmation, `merge_and_update_mapping` returns the existing mapping
unchanged (no entry removed, no field group stripped), alongside the
combined collections. -/
theorem merge_and_update_mapping_non_affirmative (existing_mapping : Mapping)
    (lA lAc lY eA eAc eY : Accounts) (confirmation current_date : String)
    (hdel : (combine_accounts lA eA current_date).2 ≠ []
      ∨ (combine_accounts lAc eAc current_date).2 ≠ []
      ∨ (combine_accounts lY eY current_date).2 ≠ [])
    (hconf : pyLower confirmation ≠ "y") :
    merge_and_update_mapping existing_mapping lA lAc lY eA eAc eY
        confirmation current_date
      = .ok (existing_mapping,
          (combine_accounts lA eA current_date).1,
          (combine_accounts lAc eAc current_date).1,
          (combine_accounts lY eY current_date).1) := by
  unfold merge_and_update_mapping
  rw [if_pos hdel, if_neg hconf]

/-- Witness for `merge_and_update_mapping_non_affirmative`: answering
`"n"` in the C2 scenario leaves the mapping untouched. -/
theorem merge_and_update_mapping_non_affirmative_witness :
    merge_and_update_mapping
      [("akahu-1", [("ynab_account_id", JVal.str "ynab-9")])]
      [] [] [] [] [] [("ynab-9", [("name", JVal.str "Nine")])] "n" "now"
      = .ok ([("akahu-1", [("ynab_account_id", JVal.str "ynab-9")])],
          (combine_accounts [] [] "now").1,
          (combine_accounts [] [] "now").1,
          (combine_accounts [] [("ynab-9", [("name", JVal.str "Nine")])] "now").1) :=
  merge_and_update_mapping_non_affirmative
    [("akahu-1", [("ynab_account_id", JVal.str "ynab-9")])]
    [] [] [] [] [] [("ynab-9", [("name", JVal.str "Nine")])] "n" "now"
    (by decide) (by decide)

theorem requiredFieldsCheckGo_obj (o : JObj) :
    ∀ fields : List String,
    requiredFieldsCheckGo (.obj o) fields = .ok (fields.all (fun f => JObj.hasKey o f)) := by
  intro fields
  induction fields with
  | nil => rfl
  | cons f rest ih =>
      have hp : pyIn f (.obj o) = Except.ok (JObj.hasKey o f) := rfl
      rw [requiredFieldsCheckGo, hp]
      cases hf : JObj.hasKey o f with
      | false => simp [List.all_cons, hf]
      | true => simpa [List.all_cons, hf] using ih

theorem mem_pyDictInsert (d : PyDict) (k v : JVal) (p : JVal × JVal)
    (hp : p ∈ pyDictInsert d k v) : p ∈ d ∨ p = (k, v) := by
  unfold pyDictInsert at hp
  by_cases hmem : d.any (fun q => q.1 == k)
  · rw [if_pos hmem] at hp
    rcases List.mem_map.mp hp with ⟨q, hq, hqe⟩
    by_cases hqk : q.1 == k
    · rw [if_pos hqk] at hqe
      exact Or.inr hqe.symm
    · rw [if_neg hqk] at hqe
      exact Or.inl (hqe ▸ hq)
  · rw [if_neg hmem] at hp
    rcases List.mem_append.mp hp with h | h
    · exact Or.inl h
    · rcases List.mem_singleton.mp h with rfl
      exact Or.inr rfl

theorem jarrContains_tail (tl : JArr) (hd v : JVal) (h : jarrContains tl v = true) :
    jarrContains (.cons hd tl) v = true := by
  unfold jarrContains
  rw [h]
  simp

theorem upgradeLegacyMapping_spec : (entries : JArr) → ∀ (acc d : PyDict),
    upgradeLegacyMapping entries acc = .ok d →
    ∀ p ∈ d, p ∈ acc ∨
      (jarrContains entries p.2 = true ∧ jSubscript p.2 "akahu_id" = .ok p.1)
  | .nil => by
      intro acc d h p hp
      injection h with h
      subst h
      exact Or.inl hp
  | .cons entry tl => by
      have ih := upgradeLegacyMapping_spec tl
      intro acc d h p hp
      rw [upgradeLegacyMapping] at h
      cases hin : pyIn "akahu_id" entry with
      | error e => rw [hin] at h; cases h
      | ok b =>
          rw [hin] at h
          cases b with
          | false =>
              rcases ih acc d h p hp with hacc | ⟨hc, hs⟩
              · exact Or.inl hacc
              · exact Or.inr ⟨jarrContains_tail tl entry p.2 hc, hs⟩
          | true =>
              cases hsub : jSubscript entry "akahu_id" with
              | error e => rw [hsub] at h; cases h
              | ok k =>
                  rw [hsub] at h
                  replace h : (if hashable k = true then
                      upgradeLegacyMapping tl (pyDictInsert acc k entry)
                    else Except.error PyErr.typeError) = Except.ok d := h
                  by_cases hh : hashable k = true
                  · rw [if_pos hh] at h
                    rcases ih (pyDictInsert acc k entry) d h p hp with hacc | ⟨hc, hs⟩
                    · rcases mem_pyDictInsert acc k entry p hacc with hold | hkv
                      · exact Or.inl hold
                      · subst hkv
                        refine Or.inr ⟨?_, hsub⟩
                        unfold jarrContains
                        simp
                    · exact Or.inr ⟨jarrContains_tail tl entry p.2 hc, hs⟩
                  · rw [if_neg hh] at h; cases h

/-- C9: `load_existing_mapping` raises the missing-file error when the
store does not exist, a `ValueError` when the content is not valid JSON or
when (for a parsed object) any of the four required top-level keys is
missing; a successful load implies all four keys were present (no silent
repair); and a legacy list-form mapping section is upgraded in memory to a
dict keyed by each entry's embedded `akahu_id`. -/
theorem load_existing_mapping_spec :
    load_existing_mapping none = .error .fileNotFoundError
    ∧ load_existing_mapping (some none) = .error .valueError
    ∧ (∀ o : JObj, required_fields.all (fun f => JObj.hasKey o f) = false →
        load_existing_mapping (some (some (.obj o))) = .error .valueError)
    ∧ (∀ (o : JObj) (r : JVal × JVal × JVal × MappingSection),
        load_existing_mapping (some (some (.obj o))) = .ok r →
        required_fields.all (fun f => JObj.hasKey o f) = true)
    ∧ (∀ (o : JObj) (entries : JArr) (d : PyDict),
        required_fields.all (fun f => JObj.hasKey o f) = true →
        JObj.lookup o "mapping" = some (.arr entries) →
        upgradeLegacyMapping entries [] = .ok d →
        (∃ a1 a2 a3, load_existing_mapping (some (some (.obj o)))
            = .ok (a1, a2, a3, .upgraded d))
        ∧ ∀ p ∈ d, jarrContains entries p.2 = true
            ∧ jSubscript p.2 "akahu_id" = .ok p.1) := by
  refine ⟨rfl, rfl, ?_, ?_, ?_⟩
  · intro o hall
    simp only [load_existing_mapping, requiredFieldsCheckGo_obj, hall]
  · intro o r h
    simp only [load_existing_mapping, requiredFieldsCheckGo_obj] at h
    cases hall : required_fields.all (fun f => JObj.hasKey o f) with
    | true => rfl
    | false =>
        rw [hall] at h
        replace h : (Except.error PyErr.valueError
            : Except PyErr (JVal × JVal × JVal × MappingSection)) = Except.ok r := h
        cases h
  · intro o entries d hall hmap hup
    have hks := List.all_eq_true.mp hall
    have h1 : (JObj.lookup o "akahu_accounts").isSome = true := by
      simpa [JObj.hasKey] using hks "akahu_accounts" (by decide)
    have h2 : (JObj.lookup o "actual_accounts").isSome = true := by
      simpa [JObj.hasKey] using hks "actual_accounts" (by decide)
    have h3 : (JObj.lookup o "ynab_accounts").isSome = true := by
      simpa [JObj.hasKey] using hks "ynab_accounts" (by decide)
    obtain ⟨a1, ha1⟩ := Option.isSome_iff_exists.mp h1
    obtain ⟨a2, ha2⟩ := Option.isSome_iff_exists.mp h2
    obtain ⟨a3, ha3⟩ := Option.isSome_iff_exists.mp h3
    constructor
    · refine ⟨a1, a2, a3, ?_⟩
      simp only [load_existing_mapping, requiredFieldsCheckGo_obj, hall, hmap,
        Option.getD_some, hup, load_tuple, jSubscript, ha1, ha2, ha3]
    · intro p hp
      rcases upgradeLegacyMapping_spec entries [] d hup p hp with hacc | hgood
      · simp at hacc
      · exact hgood

/-- Witness for `load_existing_mapping_spec`: a store missing three of the
four required keys is rejected, and a legacy list-form mapping is upgraded
to a dict keyed by the embedded `akahu_id`. -/
theorem load_existing_mapping_spec_witness :
    load_existing_mapping (some (some (.obj (.cons "akahu_accounts" (.obj .nil) .nil))))
      = .error .valueError
    ∧ ((∃ a1 a2 a3, load_existing_mapping (some (some (.obj legacyStore)))
          = .ok (a1, a2, a3, .upgraded [(.str "ak1", legacyEntry)]))
        ∧ ∀ p ∈ ([(.str "ak1", legacyEntry)] : PyDict),
            jarrContains (.cons legacyEntry .nil) p.2 = true
            ∧ jSubscript p.2 "akahu_id" = .ok p.1) :=
  ⟨load_existing_mapping_spec.2.2.1 (.cons "akahu_accounts" (.obj .nil) .nil) (by decide),
   load_existing_mapping_spec.2.2.2.2 legacyStore (.cons legacyEntry .nil)
     [(.str "ak1", legacyEntry)] (by decide) (by decide) rfl⟩
